import Mathlib

/-!
Verification development for the `lobster` crate: a Minecraft chat-`Component`
data model with its JSON wire encoding (`src/component.rs`), a minimessage
tokenizer and tag-stack parser (`src/message/tokens.rs`), and the entry points
`lobster` / `placeholder_lobster` (`src/message.rs`).

The Rust source is shallowly embedded: structs and enums become inductives,
`Option<T>` becomes `Option`, `Vec<T>` becomes `List`, `u32` becomes `Nat`
(overflow checked explicitly where the source checks it), fallible operations
return `Option`/`Except`, and a Rust `panic!`/`unwrap()` failure is modelled
as `Option.none`.
-/

/-- NamedColor from component.rs: the 16 fixed chat colors. -/
inductive NamedColor where
  | darkRed | red | gold | yellow | darkGreen | green | aqua | darkAqua
  | darkBlue | blue | lightPurple | darkPurple | white | gray | darkGray | black
deriving DecidableEq, Repr

/-- TextColor from component.rs: serde(untagged) union of named and hex colors. -/
inductive TextColor where
  | named (c : NamedColor)
  | hex (s : String)
deriving DecidableEq, Repr

/-- ClickEvent from component.rs: serde adjacently tagged (tag = action, content = value). -/
inductive ClickEvent where
  | openUrl (s : String)
  | runCommand (s : String)
  | suggestCommand (s : String)
  | changePage (s : String)
  | copyToClipboard (s : String)
deriving DecidableEq, Repr

/-- Formatting from component.rs. -/
inductive Formatting where
  | obfuscated | bold | strikethrough | underline | italic | reset
deriving DecidableEq, Repr

/-- DisplayItemData from component.rs. The `count` field is `Option<i32>` in the
source; `i32` values are modelled as `Int` (the Rust type itself confines them
to 32 bits). -/
structure DisplayItemData where
  id : String
  count : Option Int
  tag : Option String
deriving DecidableEq, Repr

/-- ScoreboardMessage from component.rs. -/
structure ScoreboardMessage where
  name : String
  objective : String
  value : Option String
deriving DecidableEq, Repr

/-- KeyMessage from component.rs. -/
structure KeyMessage where
  keybind : String
deriving DecidableEq, Repr

mutual
/-- Component from component.rs, with its twelve fields in declaration order:
extra, bold, italic, obfuscated, strikethrough, underlined, reset, color,
contents (serde-flattened), insertion, clickEvent, hoverEvent. -/
inductive Component where
  | mk (extra : Option (List Component))
       (bold italic obfuscated strikethrough underlined reset : Option Bool)
       (color : Option TextColor)
       (contents : MessageContents)
       (insertion : Option String)
       (clickEvent : Option ClickEvent)
       (hoverEvent : Option HoverEvent)

/-- MessageContents from component.rs: serde(untagged), variants in source order. -/
inductive MessageContents where
  | plain (text : String)
  | translate (t : TranslatedMessage)
  | score (s : ScoreboardMessage)
  | entity (e : EntityMessage)
  | keybind (k : KeyMessage)
  | nbt (n : NbtMessage)

/-- TranslatedMessage from component.rs (fields translate, with). -/
inductive TranslatedMessage where
  | mk (translate : String) (withArgs : Option (List Component))

/-- EntityMessage from component.rs (fields selector, separator). -/
inductive EntityMessage where
  | mk (selector : String) (separator : Option Component)

/-- NbtMessage from component.rs (fields nbt, interpret, separator, block, entity, storage). -/
inductive NbtMessage where
  | mk (nbt : String) (interpret : Option Bool) (separator : Option Component)
       (block : Option String) (entity : Option String) (storage : Option String)

/-- HoverEvent from component.rs: serde internally tagged by `action`, each
variant carrying one `contents` field. -/
inductive HoverEvent where
  | showText (contents : Component)
  | showItem (contents : DisplayItemData)
  | showEntity (contents : DisplayEntityData)

/-- DisplayEntityData from component.rs (fields name, type, id). The `Uuid` id
is modelled as its canonical string form (the uuid crate's serde encoding). -/
inductive DisplayEntityData where
  | mk (name : Option Component) (entityType : String) (id : String)
end

namespace Component

/-- Field projection: extra. -/
def extraOpt : Component → Option (List Component)
  | .mk e _ _ _ _ _ _ _ _ _ _ _ => e

/-- Field projection: bold. -/
def boldOpt : Component → Option Bool
  | .mk _ b _ _ _ _ _ _ _ _ _ _ => b

/-- Field projection: italic. -/
def italicOpt : Component → Option Bool
  | .mk _ _ i _ _ _ _ _ _ _ _ _ => i

/-- Field projection: obfuscated. -/
def obfuscatedOpt : Component → Option Bool
  | .mk _ _ _ o _ _ _ _ _ _ _ _ => o

/-- Field projection: strikethrough. -/
def strikethroughOpt : Component → Option Bool
  | .mk _ _ _ _ s _ _ _ _ _ _ _ => s

/-- Field projection: underlined. -/
def underlinedOpt : Component → Option Bool
  | .mk _ _ _ _ _ u _ _ _ _ _ _ => u

/-- Field projection: reset. -/
def resetOpt : Component → Option Bool
  | .mk _ _ _ _ _ _ r _ _ _ _ _ => r

/-- Field projection: color. -/
def colorOpt : Component → Option TextColor
  | .mk _ _ _ _ _ _ _ c _ _ _ _ => c

/-- Field projection: contents. -/
def contents : Component → MessageContents
  | .mk _ _ _ _ _ _ _ _ c _ _ _ => c

/-- Field projection: insertion. -/
def insertionOpt : Component → Option String
  | .mk _ _ _ _ _ _ _ _ _ i _ _ => i

/-- Field projection: clickEvent. -/
def clickEventOpt : Component → Option ClickEvent
  | .mk _ _ _ _ _ _ _ _ _ _ c _ => c

/-- Field projection: hoverEvent. -/
def hoverEventOpt : Component → Option HoverEvent
  | .mk _ _ _ _ _ _ _ _ _ _ _ h => h

/-- Replace the extra (children) field, keeping all other fields. -/
def withExtra : Component → Option (List Component) → Component
  | .mk _ b i o s u r c ct ins ce he, e => .mk e b i o s u r c ct ins ce he

/-- Component::default(): every optional field absent, contents = Plain "". -/
def default : Component :=
  .mk none none none none none none none none (.plain "") none none none

/-- Component::text from component.rs: default node with Plain contents. -/
def text (msg : String) : Component :=
  .mk none none none none none none none none (.plain msg) none none none

/-- Setter bold from the _fmt_impl macro: sets the field to Some and returns the value. -/
def bold : Component → Bool → Component
  | .mk e _ i o s u r c ct ins ce he, v => .mk e (some v) i o s u r c ct ins ce he

/-- Setter italic from the _fmt_impl macro. -/
def italic : Component → Bool → Component
  | .mk e b _ o s u r c ct ins ce he, v => .mk e b (some v) o s u r c ct ins ce he

/-- Setter obfuscated from the _fmt_impl macro. -/
def obfuscated : Component → Bool → Component
  | .mk e b i _ s u r c ct ins ce he, v => .mk e b i (some v) s u r c ct ins ce he

/-- Setter strikethrough from the _fmt_impl macro. -/
def strikethrough : Component → Bool → Component
  | .mk e b i o _ u r c ct ins ce he, v => .mk e b i o (some v) u r c ct ins ce he

/-- Setter underlined from the _fmt_impl macro. -/
def underlined : Component → Bool → Component
  | .mk e b i o s _ r c ct ins ce he, v => .mk e b i o s (some v) r c ct ins ce he

/-- Setter reset from the _fmt_impl macro. -/
def reset : Component → Bool → Component
  | .mk e b i o s u _ c ct ins ce he, v => .mk e b i o s u (some v) c ct ins ce he

/-- Setter for the color field (shared body of the three Colored impls). -/
def setColor : Component → TextColor → Component
  | .mk e b i o s u r _ ct ins ce he, c => .mk e b i o s u r (some c) ct ins ce he

/-- Component::formatted from component.rs: passing none as enable means true. -/
def formatted (c : Component) (format : Formatting) (enable : Option Bool) : Component :=
  let doEnable := enable.getD true
  match format with
  | .obfuscated => c.obfuscated doEnable
  | .bold => c.bold doEnable
  | .strikethrough => c.strikethrough doEnable
  | .underline => c.underlined doEnable
  | .italic => c.italic doEnable
  | .reset => c.reset doEnable

/-- Component::append from component.rs: push onto the children vector,
creating a one-element vector when the field is absent. -/
def append (c : Component) (comp : Component) : Component :=
  match c.extraOpt with
  | some vec => c.withExtra (some (vec ++ [comp]))
  | none => c.withExtra (some [comp])

end Component

mutual
/-- Component::append_to_last_child from component.rs. With children present
the source pops the last child (`vec.pop().unwrap()` — a panic, modelled as
`none`, when the vector is present but empty), recurses into it, and pushes
the result back; with no children the appended node becomes the only child.
The pop/recurse/push of the source is rendered as the structural walk
`append_to_last_child_aux` to the last element. -/
def Component.append_to_last_child : Component → Component → Option Component
  | .mk e b i o s u r c ct ins ce he, comp =>
    match e with
    | none => some (.mk (some [comp]) b i o s u r c ct ins ce he)
    | some vec =>
      (append_to_last_child_aux vec comp).map
        fun vec2 => .mk (some vec2) b i o s u r c ct ins ce he

/-- Recursion of append_to_last_child into the last element of the children
vector; the empty vector is the `unwrap` panic of the source. -/
def append_to_last_child_aux : List Component → Component → Option (List Component)
  | [], _ => none
  | [l], comp => (l.append_to_last_child comp).map fun l2 => [l2]
  | l :: r :: rest, comp =>
    (append_to_last_child_aux (r :: rest) comp).map fun tail2 => l :: tail2
end

/-- MessageContents::flatten from component.rs. -/
def MessageContents.flatten : MessageContents → String
  | .plain t => t
  | .translate (.mk tr _) => tr
  | .score _ => "<scoreboard message>"
  | .entity _ => "<entity message>"
  | .keybind k => k.keybind
  | .nbt _ => "<nbt message>"

mutual
/-- Component::flatten from component.rs: the node's own contents followed by
the flattened children in order. -/
def Component.flatten : Component → String
  | .mk e _ _ _ _ _ _ _ ct _ _ _ =>
    ct.flatten ++ (match e with
      | none => ""
      | some vec => flattenList vec)

/-- Concatenation of the flattened children, left to right. -/
def flattenList : List Component → String
  | [] => ""
  | c :: rest => c.flatten ++ flattenList rest
end

/-- Uppercase hex digit for a value below 16, as produced by Rust's {:X}. -/
def hexDigitUpper (n : Nat) : Char :=
  if n < 10 then Char.ofNat (48 + n) else Char.ofNat (55 + n)

/-- Digit expansion of Rust's {:X} (most significant first); fuelled by the
value itself, which bounds the digit count. -/
def toHexUpperAux : Nat → Nat → List Char
  | 0, _ => []
  | _ + 1, 0 => []
  | fuel + 1, n => toHexUpperAux fuel (n / 16) ++ [hexDigitUpper (n % 16)]

/-- Rust's format {:X} on a nonnegative integer: uppercase hex, no padding,
and the single digit 0 for zero. -/
def toHexUpper (n : Nat) : String :=
  if n = 0 then "0" else String.mk (toHexUpperAux n n)

/-- Rust's format {:2X}: minimum width 2, right aligned, space filled. This is
the exact format string of the Colored(u32) impl in component.rs. -/
def fmtWidth2 (s : String) : String :=
  if s.length < 2 then String.mk (List.replicate (2 - s.length) ' ') ++ s else s

/-- The hex color string built by the Colored(u32) impl in component.rs:
format!("#{:2X}", color). -/
def hexColorString (color : Nat) : String :=
  "#" ++ fmtWidth2 (toHexUpper color)

/-- Colored(u32) impl for Component from component.rs: stores
TextColor::Hex(format!("#{:2X}", color)). -/
def Component.color_u32 (c : Component) (color : Nat) : Component :=
  c.setColor (.hex (hexColorString color))

/-- Colored(NamedColor) impl for Component from component.rs. -/
def Component.color_named (c : Component) (color : NamedColor) : Component :=
  c.setColor (.named color)

/-- FromStr for NamedColor from component.rs (the same snake_case strings are
used by the serde rename_all attribute on both serialize and deserialize). -/
def namedColorFromStr (s : String) : Option NamedColor :=
  match s with
  | "dark_red" => some .darkRed
  | "red" => some .red
  | "gold" => some .gold
  | "yellow" => some .yellow
  | "green" => some .green
  | "dark_green" => some .darkGreen
  | "aqua" => some .aqua
  | "dark_aqua" => some .darkAqua
  | "dark_blue" => some .darkBlue
  | "blue" => some .blue
  | "light_purple" => some .lightPurple
  | "dark_purple" => some .darkPurple
  | "white" => some .white
  | "gray" => some .gray
  | "dark_gray" => some .darkGray
  | "black" => some .black
  | _ => none

/-- FromStr for Formatting from component.rs. -/
def formattingFromStr (s : String) : Option Formatting :=
  match s with
  | "obfuscated" => some .obfuscated
  | "bold" => some .bold
  | "strikethrough" => some .strikethrough
  | "underline" => some .underline
  | "italic" => some .italic
  | "reset" => some .reset
  | _ => none

example : Component.flatten (Component.text "hi") = "hi" := rfl
example : hexColorString 0xAABBCC = "#AABBCC" := rfl
example : hexColorString 0xABC = "#ABC" := rfl
example : hexColorString 0x5 = "# 5" := rfl

/-! ## Tokenizer (src/message/tokens.rs, logos lexer)

The logos-generated lexer is a greedy single-pass maximal-munch scanner. At a
`<` the four tag patterns that can match all end at the first following `>`
(none of their inner character classes admits `<` or `>`), so they always tie
in length and logos picks by pattern priority, which puts the fixed-word
patterns (HexColor, NamedColor, Formatting) above the generic PlaceholderTag.
A callback returning None (grab_hex on u32 overflow) turns the matched span
into the Error token. Outside tags, Contents is the maximal run of characters
other than `<` and `>`. -/

/-- MessageToken from src/message/tokens.rs. The HexColor payload is the u32
produced by grab_hex, hence a Nat below 2^32. -/
inductive MessageToken where
  | hexColor (v : Nat)
  | namedColor (c : NamedColor)
  | formatting (f : Formatting) (enabled : Bool)
  | placeholderTag (name : String)
  | contents (text : String)
  | error
deriving DecidableEq, Repr

/-- Hex digit class of the HexColor regex [\da-fA-F]. -/
def isHexDigitChar (c : Char) : Bool :=
  (('0' ≤ c && c ≤ '9') || ('a' ≤ c && c ≤ 'f') || ('A' ≤ c && c ≤ 'F'))

/-- Numeric value of one hex digit. -/
def hexDigitVal (c : Char) : Nat :=
  if '0' ≤ c && c ≤ '9' then c.toNat - 48
  else if 'a' ≤ c && c ≤ 'f' then c.toNat - 87
  else c.toNat - 55

/-- u32::from_str_radix(_, 16) digit accumulation (overflow is checked by the
caller against 2^32). -/
def hexValue (ds : List Char) : Nat :=
  ds.foldl (fun acc c => 16 * acc + hexDigitVal c) 0

/-- Character class of the PlaceholderTag regex <[^\\/\s^<>#]+>: everything
except backslash, slash, whitespace, caret, angle brackets and hash. -/
def placeholderChar (c : Char) : Bool :=
  !(c = '\\' || c = '/' || c.isWhitespace || c = '^' || c = '<' || c = '>' || c = '#')

/-- Character class shared by every tag interior: anything but the angle
brackets that delimit the tag. -/
def notAngle (c : Char) : Bool := !(c = '<' || c = '>')

/-- Formatting tag interior (grab_formatting): optional leading slash, then a
formatting word; enabled is true unless the slash was present. -/
def formattingOfInner (inner : List Char) : Option (Formatting × Bool) :=
  match inner with
  | '/' :: rest => (formattingFromStr (String.mk rest)).map fun f => (f, false)
  | _ => (formattingFromStr (String.mk inner)).map fun f => (f, true)

/-- Dispatch on a scanned tag interior: inner is the maximal angle-free run
after the `<`, after is the remaining input from the end of that run, and rest
is the full input after the `<` (consumed reach of the error token when no
pattern matches beyond the `<` itself). -/
def tagTokenCore (inner after rest : List Char) : MessageToken × List Char :=
  match after with
  | '>' :: rest3 =>
    match inner with
    | '#' :: ds =>
      if ds ≠ [] && ds.all isHexDigitChar then
        -- grab_hex: u32::from_str_radix fails (None → Error token) on overflow
        if hexValue ds < 4294967296 then (.hexColor (hexValue ds), rest3)
        else (.error, rest3)
      else (.error, rest)
    | _ =>
      match namedColorFromStr (String.mk inner) with
      | some nc => (.namedColor nc, rest3)
      | none =>
        match formattingOfInner inner with
        | some (f, b) => (.formatting f b, rest3)
        | none =>
          if inner ≠ [] && inner.all placeholderChar then
            (.placeholderTag (String.mk inner), rest3)
          else (.error, rest)
  | _ => (.error, rest)

/-- Lex one tag at a `<` (rest is the input after the `<`). Returns the token
and the remaining input. A span that no pattern matches is the logos error
path: the error token consumes the unmatched `<`. -/
def tagToken (rest : List Char) : MessageToken × List Char :=
  tagTokenCore (rest.takeWhile notAngle) (rest.dropWhile notAngle) rest

/-- One step of the lexer: none only at end of input. -/
def nextToken : List Char → Option (MessageToken × List Char)
  | [] => none
  | '<' :: rest => some (tagToken rest)
  | c :: rest =>
    if c = '>' then some (.error, rest)
    else
      some (.contents (String.mk ((c :: rest).takeWhile notAngle)),
            (c :: rest).dropWhile notAngle)

/-- Driving loop of the lexer, fuelled by the input length (every step consumes
at least one character). -/
def tokenizeAux : Nat → List Char → List MessageToken
  | 0, _ => []
  | fuel + 1, cs =>
    match nextToken cs with
    | none => []
    | some (tk, rest2) => tk :: tokenizeAux fuel rest2

/-- The token stream of a markup string, as produced by MessageToken::lexer. -/
def tokenize (s : String) : List MessageToken :=
  tokenizeAux s.length s.data

example : tokenize "<#AABBCC>Hex text" =
    [.hexColor 0xAABBCC, .contents "Hex text"] := rfl
example : tokenize "<bold>A</bold>B" =
    [.formatting .bold true, .contents "A", .formatting .bold false, .contents "B"] := rfl
example : tokenize "A<x>B" =
    [.contents "A", .placeholderTag "x", .contents "B"] := rfl
example : tokenize "<red><blue>x" =
    [.namedColor .red, .namedColor .blue, .contents "x"] := rfl
example : tokenize "<#100000000>" = [.error] := rfl

/-! ## Tag-stack parser (src/message/tokens.rs, Parser) -/

/-- Parse errors raised by Parser::advance via bail. -/
inductive ParseFailure where
  | undefinedPlaceholder (name : String)
  | invalidStackToken
  | syntaxError
  | eofReached
deriving DecidableEq, Repr

/-- Placeholder table lookup. The source is a HashMap built by repeated
insert, so a later binding for the same name overwrites an earlier one. -/
def phLookup (phs : List (String × Component)) (name : String) : Option Component :=
  (phs.reverse.find? fun p => p.1 = name).map Prod.snd

/-- Application of one stacked style token to the fresh text node, from the
Contents branch of Parser::advance; a non-style token in the stack is the
bail "Invalid token found in stack". -/
def applyStackToken (t : Component) : MessageToken → Option Component
  | .hexColor v => some (t.color_u32 v)
  | .namedColor c => some (t.color_named c)
  | .formatting f e => some (t.formatted f (some e))
  | _ => none

/-- FIFO drain of the pending-token stack (`while let Some(stacked) =
self.stack.pop_front()`), applying each token in first-seen order. -/
def drainStack (t : Component) : List MessageToken → Option Component
  | [] => some t
  | tk :: rest =>
    match applyStackToken t tk with
    | some t2 => drainStack t2 rest
    | none => none

/-- The empty reset-marker node appended after a substituted placeholder:
Component::text("").reset(true). -/
def resetMarker : Component := (Component.text "").reset true

/-- Parser::advance on one token, acting on the (current, stack) state. The
outer Option is a Rust panic (the unwrap inside append_to_last_child); the
Except layer is the bail/Result channel of advance. -/
def advance (phs : List (String × Component)) (cur : Component)
    (stack : List MessageToken) (tk : MessageToken) :
    Option (Except ParseFailure (Component × List MessageToken)) :=
  match tk with
  | .placeholderTag name =>
    match phLookup phs name with
    | none => some (.error (.undefinedPlaceholder name))
    | some ph => some (.ok ((cur.append ph).append resetMarker, stack))
  | .contents s =>
    match drainStack (Component.text s) stack with
    | none => some (.error .invalidStackToken)
    | some t =>
      match cur.append_to_last_child t with
      | none => none
      | some cur2 => some (.ok (cur2, []))
  | .error => some (.error .syntaxError)
  | other => some (.ok (cur, stack ++ [other]))

/-- Parser::parse driving loop: `while let Ok(()) = self.advance() {}` followed
by finish. Any advance error (including end of input, which advance reports on
the same channel) stops the loop and the accumulated component is returned;
a panic (none) propagates. -/
def runParse (phs : List (String × Component)) :
    Component → List MessageToken → List MessageToken → Option Component
  | cur, _, [] => some cur
  | cur, stack, tk :: rest =>
    match advance phs cur stack tk with
    | none => none
    | some (.error _) => some cur
    | some (.ok (cur2, stack2)) => runParse phs cur2 stack2 rest

/-- placeholder_lobster from src/message.rs: register the bindings, then parse
the token stream starting from the default accumulator with an empty stack. -/
def placeholder_lobster (msg : String) (phs : List (String × Component)) :
    Option Component :=
  runParse phs Component.default [] (tokenize msg)

/-- lobster from src/message.rs: parse with no placeholders. -/
def lobster (msg : String) : Option Component :=
  placeholder_lobster msg []

/-- Child of a component at an index, for navigating parse results. -/
def childAt (c : Component) (i : Nat) : Option Component :=
  c.extraOpt.bind fun l => l.get? i

example : lobster "" = some Component.default := rfl
example : lobster "<unknown_tag>" = some Component.default := rfl
example : ((lobster "<red>Hi").bind (fun c => childAt c 0)).map
      (fun n => (n.colorOpt, n.contents)) =
    some (some (.named .red), .plain "Hi") := rfl

/-! ## Helper lemmas for symbolic tokenizer runs -/

/-- takeWhile over an append whose first part wholly satisfies the predicate. -/
theorem takeWhile_all_append (p : Char → Bool) (l1 l2 : List Char) (h : l1.all p) :
    (l1 ++ l2).takeWhile p = l1 ++ l2.takeWhile p := by
  induction l1 with
  | nil => simp
  | cons c rest ih =>
    simp only [List.all_cons, Bool.and_eq_true] at h
    simp [List.takeWhile, h.1, ih h.2]

/-- dropWhile over an append whose first part wholly satisfies the predicate. -/
theorem dropWhile_all_append (p : Char → Bool) (l1 l2 : List Char) (h : l1.all p) :
    (l1 ++ l2).dropWhile p = l2.dropWhile p := by
  induction l1 with
  | nil => simp
  | cons c rest ih =>
    simp only [List.all_cons, Bool.and_eq_true] at h
    simp [List.dropWhile, h.1, ih h.2]

/-- Hex digits are not the angle brackets, so a run of them lies inside a tag. -/
theorem notAngle_of_isHexDigitChar {c : Char} (h : isHexDigitChar c = true) :
    notAngle c = true := by
  by_cases h1 : c = '<'
  · subst h1; exact absurd h (by decide)
  · by_cases h2 : c = '>'
    · subst h2; exact absurd h (by decide)
    · simp [notAngle, h1, h2]

/-- Lists of hex digits satisfy the tag-interior class. -/
theorem all_notAngle_of_all_hex {l : List Char} (h : l.all isHexDigitChar) :
    l.all notAngle = true := by
  induction l with
  | nil => rfl
  | cons c rest ih =>
    simp only [List.all_cons, Bool.and_eq_true] at h ⊢
    exact ⟨notAngle_of_isHexDigitChar h.1, ih h.2⟩

/-! ## Claims C1, C3, C4, C5, C6, C7, C9 -/

/-- C1 (counterexample): the parse entry point does not surface the
undefined-placeholder failure. lobster("<unknown_tag>") with no bindings
returns a document value — the untouched default accumulator — because
Parser::parse stops its `while let Ok` loop on any advance error and returns
the accumulator, and the entry point has no error channel at all. -/
theorem C1_entry_point_returns_document :
    lobster "<unknown_tag>" = some Component.default ∧
    (Component.default).flatten = "" := ⟨rfl, rfl⟩

/-- C1 (amended): Parser::advance itself does fail with an
undefined-placeholder error carrying the tag name when the name has no
binding, but parse swallows that error and the entry point returns the
accumulated (here: default, empty) document instead of reporting it. -/
theorem C1_advance_fails_parse_swallows :
    advance [] Component.default [] (.placeholderTag "unknown_tag") =
      some (.error (.undefinedPlaceholder "unknown_tag")) ∧
    lobster "<unknown_tag>" = some Component.default :=
  ⟨rfl, rfl⟩

/-- C3: parseMarkupWithPlaceholders("A<x>B", [("x", textNode("X"))]) flattens
to "AXB"; and with bold set on the "x" binding the "B" run (the sole child of
the reset-marker node that the parser appends right after the substituted
placeholder) still has its bold flag absent. -/
theorem C3_placeholder_substitution_reset_boundary :
    (placeholder_lobster "A<x>B" [("x", Component.text "X")]).map Component.flatten =
      some "AXB" ∧
    (placeholder_lobster "A<x>B" [("x", (Component.text "X").bold true)]).map
      Component.flatten = some "AXB" ∧
    (((placeholder_lobster "A<x>B" [("x", (Component.text "X").bold true)]).bind
        (fun t => childAt t 2)).bind (fun m => childAt m 0)).map
      (fun b => (b.contents, b.boldOpt)) = some (.plain "B", none) :=
  ⟨rfl, rfl, rfl⟩

/-- C4 (counterexample): in parseMarkup("<bold>A</bold>B") the "B" node's bold
flag is present-false, not absent: `</bold>` queues Formatting(bold, false)
and the parser applies it with `formatted(fmt, Some(false))`, which stores
`Some(false)`. -/
theorem C4_toggle_off_stores_present_false :
    (((lobster "<bold>A</bold>B").bind (fun t => childAt t 0)).bind
        (fun a => childAt a 0)).map Component.boldOpt = some (some false) ∧
    (some (some false) : Option (Option Bool)) ≠ some none :=
  ⟨rfl, by decide⟩

/-- C4 (amended): parseMarkup("<bold>A</bold>B") yields two text nodes along
the rightmost spine — "A" with bold = true, and below it "B" with bold
present-false (explicitly cleared, stored as false rather than removed). -/
theorem C4_bold_toggle_spine :
    lobster "<bold>A</bold>B" = some
      (.mk (some [
        .mk (some [
          .mk none (some false) none none none none none none (.plain "B")
            none none none])
          (some true) none none none none none none (.plain "A") none none none])
        none none none none none none none (.plain "") none none none) := rfl

/-- C5: parseMarkup("<#AABBCC>x") yields, inside the parse accumulator, a
single node (the accumulator's only child, itself childless) carrying both the
hex color #AABBCC (the value 0xAABBCC rendered by format!("#{:2X}")) and the
text "x". -/
theorem C5_hex_color_single_node :
    lobster "<#AABBCC>x" = some
      (.mk (some [
        .mk none none none none none none none (some (.hex "#AABBCC"))
          (.plain "x") none none none])
        none none none none none none none (.plain "") none none none) := rfl

/-- Spec §3 hex color shape: '#' followed by exactly six hex digits. -/
def isHexRRGGBB (s : String) : Bool :=
  match s.data with
  | '#' :: ds => ds.length = 6 && ds.all isHexDigitChar
  | _ => false

/-- C6 (code bug): the Colored(u32) impl formats with "#{:2X}" — width 2,
space padded — instead of zero-padding to six digits, so values with fewer
than six significant hex digits violate the #RRGGBB wire shape: 0xABC is
stored as "#ABC" (three digits) and 0x5 as "# 5" (with a space); only values
that already have six digits, like 0xAABBCC, come out well-formed. -/
theorem C6_hex_color_not_zero_padded :
    hexColorString 0xABC = "#ABC" ∧
    isHexRRGGBB "#ABC" = false ∧
    (((lobster "<#ABC>x").bind (fun t => childAt t 0)).map Component.colorOpt) =
      some (some (.hex "#ABC")) ∧
    hexColorString 0x5 = "# 5" ∧
    isHexRRGGBB (hexColorString 0xAABBCC) = true :=
  ⟨rfl, rfl, rfl, rfl, rfl⟩

/-- C7 (counterexample): a hex tag whose digits exceed u32::MAX does not
produce a HexColor token: grab_hex's u32::from_str_radix fails and logos emits
the Error token. "<#100000000>" (nine digits, value 2^32) lexes to [Error]. -/
theorem C7_hex_overflow_is_error :
    tokenize "<#100000000>" = [.error] ∧
    ∀ v, tokenize "<#100000000>" ≠ [.hexColor v] := by
  refine ⟨rfl, fun v h => ?_⟩
  rw [show tokenize "<#100000000>" = [MessageToken.error] from rfl] at h
  injection h with h1 _
  exact MessageToken.noConfusion h1

/-- C7 (amended): for every tag `<#h>` with h one or more hex digits whose
value fits in u32, the tokenizer produces exactly the HexColor token carrying
the integer parsed from h; the unbounded-digit-count form of the claim fails
because grab_hex rejects values above u32::MAX (see the counterexample). -/
theorem C7_hex_token_value (h : List Char) (hne : h ≠ [])
    (hhex : h.all isHexDigitChar = true) (hlt : hexValue h < 4294967296) :
    tokenize (String.mk ('<' :: '#' :: h ++ ['>'])) = [.hexColor (hexValue h)] := by
  have hna : h.all notAngle = true := all_notAngle_of_all_hex hhex
  have hlen : (String.mk ('<' :: '#' :: h ++ ['>'])).length = h.length + 2 + 1 := by
    simp [String.length]
  have hstep : ∀ rest : List Char, nextToken ('<' :: rest) = some (tagToken rest) :=
    fun _ => rfl
  have hdata : (String.mk ('<' :: '#' :: h ++ ['>'])).data = '<' :: '#' :: h ++ ['>'] := rfl
  have htokAuxNil : ∀ n, tokenizeAux n [] = [] := by
    intro n
    cases n <;> rfl
  have htake : (h ++ ['>']).takeWhile notAngle = h := by
    rw [takeWhile_all_append notAngle h ['>'] hna]
    simp [List.takeWhile, notAngle]
  have hdrop : (h ++ ['>']).dropWhile notAngle = ['>'] := by
    rw [dropWhile_all_append notAngle h ['>'] hna]
    simp [List.dropWhile, notAngle]
  have hinner : ('#' :: (h ++ ['>'])).takeWhile notAngle = '#' :: h := by
    simp [List.takeWhile, notAngle, htake]
  have hafter : ('#' :: (h ++ ['>'])).dropWhile notAngle = ['>'] := by
    simp [List.dropWhile, notAngle, hdrop]
  have htag : tagToken ('#' :: h ++ ['>']) = (.hexColor (hexValue h), []) := by
    rw [tagToken]
    simp only [List.cons_append] at hinner hafter ⊢
    rw [hinner, hafter]
    rw [tagTokenCore]
    simp [hne, hhex, hlt]
  rw [tokenize, hlen, hdata, tokenizeAux]
  simp only [List.cons_append] at htag ⊢
  simp only [hstep, htag, htokAuxNil]

/-- C7 witness: "<#AB>" lexes to the single HexColor token of value 0xAB. -/
theorem C7_hex_token_value_witness :
    tokenize (String.mk ('<' :: '#' :: ['A', 'B'] ++ ['>'])) = [.hexColor 0xAB] :=
  C7_hex_token_value ['A', 'B'] (by decide) (by decide) (by decide)

/-- C9: the pending queue is drained in FIFO order — each step applies the
front token first (first seen, first applied) — so of two color tags queued
before one text run the second is applied last and wins: for any two named
colors the produced node carries the second. -/
theorem C9_fifo_drain_second_color_wins :
    (∀ (t : Component) (tk : MessageToken) (rest : List MessageToken),
      drainStack t (tk :: rest) =
        match applyStackToken t tk with
        | some t2 => drainStack t2 rest
        | none => none) ∧
    (∀ (c1 c2 : NamedColor) (s : String),
      ((runParse [] Component.default []
          [.namedColor c1, .namedColor c2, .contents s]).bind
        (fun t => childAt t 0)).map Component.colorOpt =
        some (some (.named c2))) :=
  ⟨fun _ _ _ => rfl, fun _ _ _ => rfl⟩

/-! ## Right-spine theory (claims C8, C10) -/

mutual
/-- Right-spine well-formedness: along the chain of last children, every
present children list is non-empty. This is the precondition under which
append_to_last_child's vec.pop().unwrap() cannot panic. -/
def rightSpineOK : Component → Bool
  | .mk e _ _ _ _ _ _ _ _ _ _ _ =>
    match e with
    | none => true
    | some vec => rightSpineOKLast vec

/-- rightSpineOK at the last element of a children list; false on the empty
list, which is exactly the unwrap-panic case. -/
def rightSpineOKLast : List Component → Bool
  | [] => false
  | [l] => rightSpineOK l
  | _ :: r :: rest => rightSpineOKLast (r :: rest)
end

mutual
/-- Contents of each node along the right spine, top to bottom. -/
def spineContents : Component → List MessageContents
  | .mk e _ _ _ _ _ _ _ ct _ _ _ =>
    ct :: (match e with
      | none => []
      | some vec => spineContentsLast vec)

/-- spineContents of the last element of a children list. -/
def spineContentsLast : List Component → List MessageContents
  | [] => []
  | [l] => spineContents l
  | _ :: r :: rest => spineContentsLast (r :: rest)
end

mutual
/-- Child count of each node along the right spine (none where the children
field is absent). -/
def spineShape : Component → List (Option Nat)
  | .mk e _ _ _ _ _ _ _ _ _ _ _ =>
    (e.map List.length) :: (match e with
      | none => []
      | some vec => spineShapeLast vec)

/-- spineShape of the last element of a children list. -/
def spineShapeLast : List Component → List (Option Nat)
  | [] => []
  | [l] => spineShape l
  | _ :: r :: rest => spineShapeLast (r :: rest)
end

/-- A right-spine-valid children list is non-empty. -/
theorem rightSpineOKLast_ne_nil {vec : List Component}
    (h : rightSpineOKLast vec = true) : vec ≠ [] := by
  intro he
  subst he
  simp [rightSpineOKLast] at h

/-- spineShape never returns the empty list. -/
theorem spineShape_ne_nil (c : Component) : spineShape c ≠ [] := by
  intro h
  cases c with
  | mk e b i o s u r col ct ins ce he =>
    rw [spineShape.eq_def] at h
    exact List.noConfusion h

/-- spineShapeLast of a non-empty list is non-empty. -/
theorem spineShapeLast_ne_nil : ∀ vec : List Component, vec ≠ [] →
    spineShapeLast vec ≠ [] := by
  intro vec
  induction vec with
  | nil => intro h; exact absurd rfl h
  | cons l rest ih =>
    intro _
    cases rest with
    | nil => simpa [spineShapeLast] using spineShape_ne_nil l
    | cons r rest2 => simpa [spineShapeLast] using ih (by simp)

/-- Recursion of append_to_last_child_aux, phrased the way the source pops
the last element: on vec ++ [l], recurse into l and push the result back. -/
theorem append_to_last_child_aux_append (vec : List Component) (l x : Component) :
    append_to_last_child_aux (vec ++ [l]) x =
      (l.append_to_last_child x).map fun l2 => vec ++ [l2] := by
  induction vec with
  | nil =>
    simp [append_to_last_child_aux]
  | cons a rest ih =>
    cases hrl : rest ++ [l] with
    | nil => exact absurd hrl (by simp)
    | cons b tail =>
      have : append_to_last_child_aux (a :: rest ++ [l]) x =
          (append_to_last_child_aux (rest ++ [l]) x).map fun t2 => a :: t2 := by
        rw [List.cons_append, hrl, append_to_last_child_aux, ← hrl]
      rw [this, ih]
      cases l.append_to_last_child x with
      | none => rfl
      | some l2 => rfl

/-- Main spine lemma, by joint induction on size: on a right-spine-valid tree,
append_to_last_child succeeds, extends the spine contents by those of the
appended node, and turns the childless spine bottom into a node whose sole
child is the appended node. -/
theorem append_to_last_child_spine : ∀ n : Nat,
    (∀ c x : Component, sizeOf c ≤ n → rightSpineOK c = true →
      ∃ c2, c.append_to_last_child x = some c2 ∧
        spineContents c2 = spineContents c ++ spineContents x ∧
        spineShape c2 = (spineShape c).dropLast ++ some 1 :: spineShape x) ∧
    (∀ (vec : List Component) (x : Component), sizeOf vec ≤ n →
      rightSpineOKLast vec = true →
      ∃ vec2, append_to_last_child_aux vec x = some vec2 ∧
        vec2.length = vec.length ∧
        spineContentsLast vec2 = spineContentsLast vec ++ spineContents x ∧
        spineShapeLast vec2 = (spineShapeLast vec).dropLast ++ some 1 :: spineShape x) := by
  intro n
  induction n with
  | zero =>
    constructor
    · intro c x hle
      cases c
      simp at hle
    · intro vec x hle
      cases vec with
      | nil => intro h; simp [rightSpineOKLast] at h
      | cons l rest => simp at hle
  | succ n ih =>
    obtain ⟨ihP, ihQ⟩ := ih
    constructor
    · intro c x hle hok
      cases c with
      | mk e b i o s u r col ct ins ce he =>
        cases e with
        | none =>
          refine ⟨.mk (some [x]) b i o s u r col ct ins ce he, rfl, ?_, ?_⟩
          · simp [spineContents, spineContentsLast]
          · simp [spineShape, spineShapeLast]
        | some vec =>
          simp only [rightSpineOK] at hok
          have hsz : sizeOf vec ≤ n := by
            simp at hle
            omega
          obtain ⟨vec2, haux, hlen, hcont, hshape⟩ := ihQ vec x hsz hok
          refine ⟨.mk (some vec2) b i o s u r col ct ins ce he, ?_, ?_, ?_⟩
          · simp only [Component.append_to_last_child, haux]
            rfl
          · simp [spineContents, hcont]
          · have hvne : vec ≠ [] := rightSpineOKLast_ne_nil hok
            have hsne : spineShapeLast vec ≠ [] := spineShapeLast_ne_nil vec hvne
            cases hss : spineShapeLast vec with
            | nil => exact absurd hss hsne
            | cons a tail =>
              simp [spineShape, hlen, hshape, hss, List.dropLast_cons₂]
    · intro vec x hle hok
      cases vec with
      | nil => simp [rightSpineOKLast] at hok
      | cons l rest =>
        cases rest with
        | nil =>
          simp only [rightSpineOKLast] at hok
          have hsz : sizeOf l ≤ n := by
            simp at hle
            omega
          obtain ⟨l2, hl2, hcont, hshape⟩ := ihP l x hsz hok
          refine ⟨[l2], ?_, rfl, ?_, ?_⟩
          · simp only [append_to_last_child_aux, hl2]
            rfl
          · simpa [spineContentsLast] using hcont
          · simpa [spineShapeLast] using hshape
        | cons r rest2 =>
          simp only [rightSpineOKLast] at hok
          have hsz : sizeOf (r :: rest2) ≤ n := by
            simp at hle ⊢
            omega
          obtain ⟨tail2, haux, hlen, hcont, hshape⟩ := ihQ (r :: rest2) x hsz hok
          have htne : tail2 ≠ [] := by
            intro h0
            rw [h0] at hlen
            simp at hlen
          cases tail2 with
          | nil => exact absurd rfl htne
          | cons t1 trest =>
            refine ⟨l :: t1 :: trest, ?_, by simpa using hlen, ?_, ?_⟩
            · simp only [append_to_last_child_aux, haux]
              rfl
            · simpa [spineContentsLast] using hcont
            · simpa [spineShapeLast] using hshape

/-- A present-but-empty children list makes append_to_last_child panic (none):
the source unconditionally unwraps vec.pop(). -/
theorem append_to_last_child_empty_vec {c : Component} (x : Component)
    (h : c.extraOpt = some []) : c.append_to_last_child x = none := by
  cases c with
  | mk e b i o s u r col ct ins ce he =>
    simp only [Component.extraOpt] at h
    subst h
    rfl

/-- append puts the appended node at the end of the children list, so the
right spine of the result continues through the appended node. -/
theorem rightSpineOKLast_append (vec : List Component) (x : Component) :
    rightSpineOKLast (vec ++ [x]) = rightSpineOK x := by
  induction vec with
  | nil => rfl
  | cons a rest ih =>
    cases hrl : rest ++ [x] with
    | nil => exact absurd hrl (by simp)
    | cons b tail =>
      calc rightSpineOKLast (a :: rest ++ [x]) = rightSpineOKLast (rest ++ [x]) := by
            rw [List.cons_append, hrl, rightSpineOKLast, ← hrl]
        _ = rightSpineOK x := ih

/-- C8: append_to_last_child is a structural recursion on the chain of last
children. With no children field the appended node becomes the only child;
with children present it recurses into the last child (pop/recurse/push); and
on any right-spine-valid tree it therefore succeeds and attaches the appended
node as the sole child of the deepest rightmost descendant: the result's
right-spine contents are those of the receiver followed by those of the
appended node, and its spine of child counts is the receiver's with the
childless bottom replaced by a one-child node that continues into the
appended node's spine. -/
theorem C8_append_to_last_child_structural (c x : Component) :
    (c.extraOpt = none → c.append_to_last_child x = some (c.withExtra (some [x]))) ∧
    (∀ (vec : List Component) (l : Component), c.extraOpt = some (vec ++ [l]) →
      c.append_to_last_child x = (l.append_to_last_child x).map
        (fun l2 => c.withExtra (some (vec ++ [l2])))) ∧
    (rightSpineOK c = true → ∃ c2, c.append_to_last_child x = some c2 ∧
      spineContents c2 = spineContents c ++ spineContents x ∧
      spineShape c2 = (spineShape c).dropLast ++ some 1 :: spineShape x) := by
  refine ⟨?_, ?_, ?_⟩
  · intro h
    cases c with
    | mk e b i o s u r col ct ins ce he =>
      simp only [Component.extraOpt] at h
      subst h
      rfl
  · intro vec l h
    cases c with
    | mk e b i o s u r col ct ins ce he =>
      simp only [Component.extraOpt] at h
      subst h
      simp only [Component.append_to_last_child, append_to_last_child_aux_append]
      cases l.append_to_last_child x with
      | none => rfl
      | some l2 => simp [Component.withExtra]
  · intro h
    exact (append_to_last_child_spine (sizeOf c)).1 c x le_rfl h

/-- C8 witness: the childless clause, the pop-last clause and the spine clause
of the structural-recursion theorem, instantiated on concrete nodes. -/
theorem C8_structural_witness :
    (Component.text "a").append_to_last_child (Component.text "b") =
      some ((Component.text "a").withExtra (some [Component.text "b"])) ∧
    ((Component.text "a").withExtra (some [Component.text "c"])).append_to_last_child
        (Component.text "b") =
      ((Component.text "c").append_to_last_child (Component.text "b")).map
        (fun l2 => ((Component.text "a").withExtra
          (some [Component.text "c"])).withExtra (some ([] ++ [l2]))) ∧
    ∃ c2, ((Component.text "a").withExtra
        (some [Component.text "c"])).append_to_last_child (Component.text "b") =
        some c2 ∧
      spineContents c2 = spineContents ((Component.text "a").withExtra
        (some [Component.text "c"])) ++ spineContents (Component.text "b") ∧
      spineShape c2 = (spineShape ((Component.text "a").withExtra
        (some [Component.text "c"]))).dropLast ++
        some 1 :: spineShape (Component.text "b") :=
  ⟨(C8_append_to_last_child_structural (Component.text "a") (Component.text "b")).1 rfl,
   (C8_append_to_last_child_structural ((Component.text "a").withExtra
      (some [Component.text "c"])) (Component.text "b")).2.1 [] (Component.text "c") rfl,
   (C8_append_to_last_child_structural ((Component.text "a").withExtra
      (some [Component.text "c"])) (Component.text "b")).2.2 rfl⟩

/-- C10: on a component whose present children lists along the right spine are
all non-empty, append_to_last_child never hits the unwrap-failure branch; a
component whose children field holds an empty list makes it panic
(vec.pop().unwrap() on an empty vector, modelled as none); and append
maintains the precondition: it pushes onto or creates a one-element list, so
the right spine of the result runs through the appended node. -/
theorem C10_unwrap_precondition (c x : Component) :
    (rightSpineOK c = true → (c.append_to_last_child x).isSome = true) ∧
    (c.extraOpt = some [] → c.append_to_last_child x = none) ∧
    (∀ y : Component, rightSpineOK (y.append x) = rightSpineOK x) := by
  refine ⟨?_, ?_, ?_⟩
  · intro h
    obtain ⟨c2, hc2, -, -⟩ := (append_to_last_child_spine (sizeOf c)).1 c x le_rfl h
    simp [hc2]
  · exact fun h => append_to_last_child_empty_vec x h
  · intro y
    cases y with
    | mk e b i o s u r col ct ins ce he =>
      cases e with
      | none =>
        simp [Component.append, Component.extraOpt, Component.withExtra,
          rightSpineOK, rightSpineOKLast]
      | some vec =>
        simp [Component.append, Component.extraOpt, Component.withExtra,
          rightSpineOK, rightSpineOKLast_append]

/-- C10 witness: success on a valid spine, the panic on a present-but-empty
children list, and append preserving the precondition, on concrete nodes. -/
theorem C10_unwrap_precondition_witness :
    ((Component.text "a").append_to_last_child (Component.text "b")).isSome = true ∧
    ((Component.text "a").withExtra (some [])).append_to_last_child
      (Component.text "b") = none ∧
    rightSpineOK ((Component.text "y").append (Component.text "b")) =
      rightSpineOK (Component.text "b") :=
  ⟨(C10_unwrap_precondition (Component.text "a") (Component.text "b")).1 rfl,
   (C10_unwrap_precondition ((Component.text "a").withExtra (some []))
      (Component.text "b")).2.1 rfl,
   (C10_unwrap_precondition (Component.text "a") (Component.text "b")).2.2
      (Component.text "y")⟩

/-! ## JSON wire encoding (claim C2)

serde_json values are modelled as trees; an object is its ordered field list
(serde writes struct fields in declaration order; the decoder below looks
fields up by key, so decoding is independent of key order, as serde's is).
The serde attributes of component.rs are reproduced: skip_serializing_none
omits absent options, the contents union is flattened into the component
object and untagged (trial decode in variant order), TextColor is untagged,
ClickEvent is adjacently tagged (action/value) and HoverEvent internally
tagged (action). -/

/-- JSON value trees. Numbers only occur as the i32 item count here. -/
inductive Json where
  | str (s : String)
  | jbool (b : Bool)
  | num (n : Int)
  | arr (elems : List Json)
  | obj (fields : List (String × Json))

/-- Optional serialized field: absent options produce no field at all. -/
def optF (k : String) (o : Option Json) : List (String × Json) :=
  match o with
  | none => []
  | some v => [(k, v)]

/-- serde rename_all = snake_case name of a NamedColor. -/
def namedColorStr : NamedColor → String
  | .darkRed => "dark_red"
  | .red => "red"
  | .gold => "gold"
  | .yellow => "yellow"
  | .darkGreen => "dark_green"
  | .green => "green"
  | .aqua => "aqua"
  | .darkAqua => "dark_aqua"
  | .darkBlue => "dark_blue"
  | .blue => "blue"
  | .lightPurple => "light_purple"
  | .darkPurple => "dark_purple"
  | .white => "white"
  | .gray => "gray"
  | .darkGray => "dark_gray"
  | .black => "black"

/-- TextColor serialization: untagged, both variants are plain strings. -/
def textColorJson : TextColor → Json
  | .named c => .str (namedColorStr c)
  | .hex s => .str s

/-- ClickEvent serialization: adjacently tagged object {action, value}. -/
def clickEventJson : ClickEvent → Json
  | .openUrl s => .obj [("action", .str "open_url"), ("value", .str s)]
  | .runCommand s => .obj [("action", .str "run_command"), ("value", .str s)]
  | .suggestCommand s => .obj [("action", .str "suggest_command"), ("value", .str s)]
  | .changePage s => .obj [("action", .str "change_page"), ("value", .str s)]
  | .copyToClipboard s => .obj [("action", .str "copy_to_clipboard"), ("value", .str s)]

/-- DisplayItemData serialization (fields id, count, tag; absent ones omitted). -/
def itemDataJson (d : DisplayItemData) : Json :=
  .obj ([("id", Json.str d.id)] ++ optF "count" (d.count.map Json.num)
    ++ optF "tag" (d.tag.map Json.str))

/-- ScoreboardMessage serialization (fields name, objective, value). -/
def scoreJson (s : ScoreboardMessage) : Json :=
  .obj ([("name", Json.str s.name), ("objective", Json.str s.objective)]
    ++ optF "value" (s.value.map Json.str))

mutual
/-- Serialized field list of a Component: the twelve fields in declaration
order, absent options omitted, contents flattened in place. -/
def componentFields : Component → List (String × Json)
  | .mk e b i o s u r col ct ins ce he =>
    optF "extra" (extraJsonOpt e)
    ++ optF "bold" (b.map Json.jbool)
    ++ optF "italic" (i.map Json.jbool)
    ++ optF "obfuscated" (o.map Json.jbool)
    ++ optF "strikethrough" (s.map Json.jbool)
    ++ optF "underlined" (u.map Json.jbool)
    ++ optF "reset" (r.map Json.jbool)
    ++ optF "color" (col.map textColorJson)
    ++ contentsFields ct
    ++ optF "insertion" (ins.map Json.str)
    ++ optF "clickEvent" (ce.map clickEventJson)
    ++ optF "hoverEvent" (hoverJsonOpt he)

/-- Serialized value of an optional children list. -/
def extraJsonOpt : Option (List Component) → Option Json
  | none => none
  | some vec => some (Json.arr (componentListJson vec))

/-- Serialized value of an optional nested component (separator, name). -/
def sepJsonOpt : Option Component → Option Json
  | none => none
  | some c => some (Json.obj (componentFields c))

/-- Serialized value of an optional hover event. -/
def hoverJsonOpt : Option HoverEvent → Option Json
  | none => none
  | some hv => some (hoverEventJson hv)

/-- Serialization of a children array. -/
def componentListJson : List Component → List Json
  | [] => []
  | c :: rest => Json.obj (componentFields c) :: componentListJson rest

/-- Flattened serialized fields of the untagged contents union, per variant. -/
def contentsFields : MessageContents → List (String × Json)
  | .plain t => [("text", Json.str t)]
  | .translate (.mk tr w) =>
    ("translate", Json.str tr) :: optF "with" (extraJsonOpt w)
  | .score sm => [("score", scoreJson sm)]
  | .entity (.mk sel sep) =>
    ("selector", Json.str sel) :: optF "separator" (sepJsonOpt sep)
  | .keybind k => [("keybind", Json.str k.keybind)]
  | .nbt (.mk p itp sep bl en st) =>
    ("nbt", Json.str p)
    :: (optF "interpret" (itp.map Json.jbool)
      ++ optF "separator" (sepJsonOpt sep)
      ++ optF "block" (bl.map Json.str)
      ++ optF "entity" (en.map Json.str)
      ++ optF "storage" (st.map Json.str))

/-- HoverEvent serialization: internally tagged by action, with the variant's
single contents field. -/
def hoverEventJson : HoverEvent → Json
  | .showText c =>
    Json.obj [("action", Json.str "show_text"), ("contents", Json.obj (componentFields c))]
  | .showItem d =>
    Json.obj [("action", Json.str "show_item"), ("contents", itemDataJson d)]
  | .showEntity (.mk nm ty uid) =>
    Json.obj [("action", Json.str "show_entity"),
      ("contents", Json.obj (optF "name" (sepJsonOpt nm)
        ++ [("type", Json.str ty), ("id", Json.str uid)]))]
end

/-- toJson on a Component: the serialized object. -/
def componentJson (c : Component) : Json := .obj (componentFields c)

/-- Well-formedness of a stored color: hex colors have the #RRGGBB shape of
spec section 3. -/
def wfColorOpt : Option TextColor → Bool
  | some (.hex s) => isHexRRGGBB s
  | _ => true

mutual
/-- Grammar well-formedness from spec section 3, restricted to what is not
already enforced by the types: every stored hex color is a '#' plus exactly
six hex digits. -/
def wfComponent : Component → Bool
  | .mk e _ _ _ _ _ _ col ct _ _ he =>
    wfColorOpt col && wfExtra e && wfContents ct && wfHoverOpt he

/-- wfComponent on an optional children list. -/
def wfExtra : Option (List Component) → Bool
  | none => true
  | some vec => wfComponentList vec

/-- wfComponent on an optional nested component. -/
def wfSepOpt : Option Component → Bool
  | none => true
  | some c => wfComponent c

/-- wfHover on an optional hover event. -/
def wfHoverOpt : Option HoverEvent → Bool
  | none => true
  | some hv => wfHover hv

/-- wfComponent on every element. -/
def wfComponentList : List Component → Bool
  | [] => true
  | c :: rest => wfComponent c && wfComponentList rest

/-- wfComponent inside the contents union. -/
def wfContents : MessageContents → Bool
  | .plain _ => true
  | .translate (.mk _ w) => wfExtra w
  | .score _ => true
  | .entity (.mk _ sep) => wfSepOpt sep
  | .keybind _ => true
  | .nbt (.mk _ _ sep _ _ _) => wfSepOpt sep

/-- wfComponent inside hover events. -/
def wfHover : HoverEvent → Bool
  | .showText c => wfComponent c
  | .showItem _ => true
  | .showEntity (.mk nm _ _) => wfSepOpt nm
end

/-! ## JSON wire decoding (claim C2)

The decoders mirror serde's derived Deserialize impls: struct fields are
looked up by key; Option fields decode to none when the key is absent; the
untagged contents union is decoded by trial in variant declaration order (a
trial fails when its required field is missing or malformed, unknown fields
are ignored); TextColor tries Named then Hex; ClickEvent and HoverEvent
dispatch on their action tag. The Nat argument is fuel, a termination device
only: every recursive call decrements it, and the round-trip theorem supplies
enough for the value at hand. -/

/-- Key lookup in a serialized object (first occurrence). -/
def getField : List (String × Json) → String → Option Json
  | [], _ => none
  | (k, v) :: rest, key => if k = key then some v else getField rest key

/-- Optional boolean field. -/
def decodeOptBool : Option Json → Option (Option Bool)
  | none => some none
  | some (.jbool b) => some (some b)
  | some _ => none

/-- Required string field. -/
def decodeStr : Option Json → Option String
  | some (.str s) => some s
  | _ => none

/-- Optional string field. -/
def decodeOptStr : Option Json → Option (Option String)
  | none => some none
  | some (.str s) => some (some s)
  | some _ => none

/-- Optional integer field (the i32 item count). -/
def decodeOptNum : Option Json → Option (Option Int)
  | none => some none
  | some (.num n) => some (some n)
  | some _ => none

/-- TextColor deserialization: untagged trial Named before Hex, so one of the
16 names decodes as Named and any other string as Hex. -/
def decodeTextColor : Json → Option TextColor
  | .str s =>
    match namedColorFromStr s with
    | some nc => some (.named nc)
    | none => some (.hex s)
  | _ => none

/-- Optional color field. -/
def decodeOptColor : Option Json → Option (Option TextColor)
  | none => some none
  | some j => (decodeTextColor j).map some

/-- ClickEvent deserialization: adjacently tagged, dispatch on action. -/
def decodeClickEvent : Json → Option ClickEvent
  | .obj fs => do
    let a ← decodeStr (getField fs "action")
    let v ← decodeStr (getField fs "value")
    match a with
    | "open_url" => some (.openUrl v)
    | "run_command" => some (.runCommand v)
    | "suggest_command" => some (.suggestCommand v)
    | "change_page" => some (.changePage v)
    | "copy_to_clipboard" => some (.copyToClipboard v)
    | _ => none
  | _ => none

/-- Optional click event field. -/
def decodeOptClick : Option Json → Option (Option ClickEvent)
  | none => some none
  | some j => (decodeClickEvent j).map some

/-- DisplayItemData deserialization. -/
def decodeItemData : Json → Option DisplayItemData
  | .obj fs => do
    let i ← decodeStr (getField fs "id")
    let cnt ← decodeOptNum (getField fs "count")
    let tg ← decodeOptStr (getField fs "tag")
    some ⟨i, cnt, tg⟩
  | _ => none

/-- ScoreboardMessage deserialization. -/
def decodeScoreMsg : Json → Option ScoreboardMessage
  | .obj fs => do
    let n ← decodeStr (getField fs "name")
    let o ← decodeStr (getField fs "objective")
    let v ← decodeOptStr (getField fs "value")
    some ⟨n, o, v⟩
  | _ => none

/-- Plain trial of the untagged contents union: requires a string text field. -/
def decodePlainTrial (fs : List (String × Json)) : Option MessageContents :=
  match getField fs "text" with
  | some (.str t) => some (.plain t)
  | _ => none

/-- Score trial: requires a score field holding a ScoreboardMessage object. -/
def decodeScoreTrial (fs : List (String × Json)) : Option MessageContents :=
  match getField fs "score" with
  | some j => (decodeScoreMsg j).map fun sm => .score sm
  | none => none

/-- Keybind trial: requires a string keybind field. -/
def decodeKeybindTrial (fs : List (String × Json)) : Option MessageContents :=
  match getField fs "keybind" with
  | some (.str k) => some (.keybind ⟨k⟩)
  | _ => none

mutual
/-- Component deserialization from a serialized object: every known field by
key (absent options decode to none), the flattened contents union by trial
over the same object. -/
def decodeComponent : Nat → Json → Option Component
  | 0, _ => none
  | fuel + 1, .obj fs => do
    let e ← (match getField fs "extra" with
      | none => some none
      | some (.arr js) => (decodeComponentList fuel js).map some
      | some _ => none)
    let b ← decodeOptBool (getField fs "bold")
    let i ← decodeOptBool (getField fs "italic")
    let o ← decodeOptBool (getField fs "obfuscated")
    let s ← decodeOptBool (getField fs "strikethrough")
    let u ← decodeOptBool (getField fs "underlined")
    let r ← decodeOptBool (getField fs "reset")
    let col ← decodeOptColor (getField fs "color")
    let ct ← decodeContents fuel fs
    let ins ← decodeOptStr (getField fs "insertion")
    let ce ← decodeOptClick (getField fs "clickEvent")
    let he ← (match getField fs "hoverEvent" with
      | none => some none
      | some j => (decodeHover fuel j).map some)
    some (.mk e b i o s u r col ct ins ce he)
  | _ + 1, _ => none

/-- Children array deserialization. -/
def decodeComponentList : Nat → List Json → Option (List Component)
  | 0, _ => none
  | _ + 1, [] => some []
  | fuel + 1, j :: rest => do
    let c ← decodeComponent fuel j
    let cs ← decodeComponentList fuel rest
    some (c :: cs)

/-- Untagged contents union: trials in variant declaration order. -/
def decodeContents : Nat → List (String × Json) → Option MessageContents
  | 0, _ => none
  | fuel + 1, fs =>
    (decodePlainTrial fs).orElse fun _ =>
    (decodeTranslateTrial fuel fs).orElse fun _ =>
    (decodeScoreTrial fs).orElse fun _ =>
    (decodeEntityTrial fuel fs).orElse fun _ =>
    (decodeKeybindTrial fs).orElse fun _ =>
    decodeNbtTrial fuel fs

/-- Translate trial: requires a string translate field; the optional with
field must be an array of components. -/
def decodeTranslateTrial : Nat → List (String × Json) → Option MessageContents
  | 0, _ => none
  | fuel + 1, fs => do
    let tr ← decodeStr (getField fs "translate")
    let w ← (match getField fs "with" with
      | none => some none
      | some (.arr js) => (decodeComponentList fuel js).map some
      | some _ => none)
    some (.translate (.mk tr w))

/-- Entity trial: requires a string selector field; the optional separator
must be a component object. -/
def decodeEntityTrial : Nat → List (String × Json) → Option MessageContents
  | 0, _ => none
  | fuel + 1, fs => do
    let sel ← decodeStr (getField fs "selector")
    let sep ← (match getField fs "separator" with
      | none => some none
      | some j => (decodeComponent fuel j).map some)
    some (.entity (.mk sel sep))

/-- Nbt trial: requires a string nbt field, with the optional interpret,
separator and block/entity/storage source fields. -/
def decodeNbtTrial : Nat → List (String × Json) → Option MessageContents
  | 0, _ => none
  | fuel + 1, fs => do
    let p ← decodeStr (getField fs "nbt")
    let itp ← decodeOptBool (getField fs "interpret")
    let sep ← (match getField fs "separator" with
      | none => some none
      | some j => (decodeComponent fuel j).map some)
    let bl ← decodeOptStr (getField fs "block")
    let en ← decodeOptStr (getField fs "entity")
    let st ← decodeOptStr (getField fs "storage")
    some (.nbt (.mk p itp sep bl en st))

/-- HoverEvent deserialization: dispatch on the action tag. -/
def decodeHover : Nat → Json → Option HoverEvent
  | 0, _ => none
  | fuel + 1, .obj fs => do
    let a ← decodeStr (getField fs "action")
    match a with
    | "show_text" =>
      match getField fs "contents" with
      | some j => (decodeComponent fuel j).map fun c => .showText c
      | none => none
    | "show_item" =>
      match getField fs "contents" with
      | some j => (decodeItemData j).map fun d => .showItem d
      | none => none
    | "show_entity" =>
      match getField fs "contents" with
      | some j => (decodeEntityData fuel j).map fun d => .showEntity d
      | none => none
    | _ => none
  | _ + 1, _ => none

/-- DisplayEntityData deserialization (optional name component, type, id). -/
def decodeEntityData : Nat → Json → Option DisplayEntityData
  | 0, _ => none
  | fuel + 1, .obj fs => do
    let nm ← (match getField fs "name" with
      | none => some none
      | some j => (decodeComponent fuel j).map some)
    let ty ← decodeStr (getField fs "type")
    let uid ← decodeStr (getField fs "id")
    some (.mk nm ty uid)
  | _ + 1, _ => none
end

/-! ## Field lookup lemmas for the round trip -/

/-- Lookup hits a matching head field. -/
theorem getField_cons_eq (k : String) (v : Json) (rest : List (String × Json)) :
    getField ((k, v) :: rest) k = some v := by
  simp [getField]

/-- Lookup skips a non-matching head field. -/
theorem getField_cons_ne {k2 k : String} (h : k2 ≠ k) (v : Json)
    (rest : List (String × Json)) :
    getField ((k2, v) :: rest) k = getField rest k := by
  simp [getField, h]

/-- Lookup skips an optional field of a different key. -/
theorem getField_optF_ne {k2 k : String} (h : k2 ≠ k) (o : Option Json)
    (rest : List (String × Json)) :
    getField (optF k2 o ++ rest) k = getField rest k := by
  cases o <;> simp [optF, getField, h]

/-- Lookup on a trailing optional field of a different key. -/
theorem getField_optF_ne_alone {k2 k : String} (h : k2 ≠ k) (o : Option Json) :
    getField (optF k2 o) k = none := by
  cases o <;> simp [optF, getField, h]

/-- Lookup finds an optional field of its own key when no later field
shadows it: present gives the value, absent falls through to none. -/
theorem getField_optF_eq {k : String} (o : Option Json)
    {rest : List (String × Json)} (h : getField rest k = none) :
    getField (optF k o ++ rest) k = o := by
  cases o <;> simp [optF, getField, h]

/-- Lookup on a trailing optional field of its own key. -/
theorem getField_optF_eq_alone (k : String) (o : Option Json) :
    getField (optF k o) k = o := by
  cases o <;> simp [optF, getField]

/-- Appending fields that lack the key does not change a lookup. -/
theorem getField_append_right_none {l2 : List (String × Json)} {k : String}
    (h : getField l2 k = none) (l1 : List (String × Json)) :
    getField (l1 ++ l2) k = getField l1 k := by
  induction l1 with
  | nil => simpa using h
  | cons p rest ih =>
    obtain ⟨k2, v⟩ := p
    by_cases hk : k2 = k
    · subst hk
      simp [getField]
    · simp [getField, hk, ih]

/-- A key outside the contents vocabulary never occurs in contentsFields. -/
theorem getField_contentsFields_none (ct : MessageContents) (k : String)
    (h1 : ("text" : String) ≠ k) (h2 : ("translate" : String) ≠ k)
    (h3 : ("with" : String) ≠ k) (h4 : ("score" : String) ≠ k)
    (h5 : ("selector" : String) ≠ k) (h6 : ("separator" : String) ≠ k)
    (h7 : ("keybind" : String) ≠ k) (h8 : ("nbt" : String) ≠ k)
    (h9 : ("interpret" : String) ≠ k) (h10 : ("block" : String) ≠ k)
    (h11 : ("entity" : String) ≠ k) (h12 : ("storage" : String) ≠ k) :
    getField (contentsFields ct) k = none := by
  cases ct with
  | plain t => simp [contentsFields, getField, h1]
  | translate t =>
    obtain ⟨tr, w⟩ := t
    cases w <;> simp [contentsFields, optF, getField, h2, h3]
  | score sm => simp [contentsFields, getField, h4]
  | entity em =>
    obtain ⟨sel, sep⟩ := em
    cases sep <;> simp [contentsFields, optF, getField, h5, h6]
  | keybind kk => simp [contentsFields, getField, h7]
  | nbt nb =>
    obtain ⟨p, itp, sep, bl, en, st⟩ := nb
    cases itp <;> cases sep <;> cases bl <;> cases en <;> cases st <;>
      simp [contentsFields, optF, getField, h6, h8, h9, h10, h11, h12]

/-- Fields lacking the key pass a lookup through to the rest. -/
theorem getField_append_left_none {l1 : List (String × Json)} {k : String}
    (h : getField l1 k = none) (l2 : List (String × Json)) :
    getField (l1 ++ l2) k = getField l2 k := by
  induction l1 with
  | nil => simp
  | cons p rest ih =>
    obtain ⟨k2, v⟩ := p
    by_cases hk : k2 = k
    · subst hk
      simp [getField] at h
    · rw [getField] at h
      simp only [hk, if_false] at h
      simp [getField, hk, ih h]

/-- Component-level keys never occur in the flattened contents fields. -/
theorem getField_cf_own (ct : MessageContents) (k : String)
    (h : k ∈ ["extra", "bold", "italic", "obfuscated", "strikethrough", "underlined",
      "reset", "color", "insertion", "clickEvent", "hoverEvent"]) :
    getField (contentsFields ct) k = none := by
  fin_cases h <;>
    exact getField_contentsFields_none ct _ (by decide) (by decide) (by decide) (by decide)
      (by decide) (by decide) (by decide) (by decide) (by decide) (by decide) (by decide)
      (by decide)

/-! ## Decoder round-trip helpers -/

/-- Optional booleans decode back. -/
theorem decodeOptBool_map (o : Option Bool) : decodeOptBool (o.map Json.jbool) = some o := by
  cases o <;> rfl

/-- Optional strings decode back. -/
theorem decodeOptStr_map (o : Option String) : decodeOptStr (o.map Json.str) = some o := by
  cases o <;> rfl

/-- Optional integers decode back. -/
theorem decodeOptNum_map (o : Option Int) : decodeOptNum (o.map Json.num) = some o := by
  cases o <;> rfl

/-- The serde snake_case color names decode to the same color. -/
theorem namedColorFromStr_round (c : NamedColor) :
    namedColorFromStr (namedColorStr c) = some c := by
  cases c <;> rfl

/-- A well-formed hex color string is not one of the 16 color names (they do
not start with '#'), so the untagged Named trial fails on it. -/
theorem namedColorFromStr_none_of_hex {s : String} (h : isHexRRGGBB s = true) :
    namedColorFromStr s = none := by
  rw [namedColorFromStr.eq_def]
  split <;> first
    | rfl
    | exact absurd h (by decide)

/-- Well-formed colors decode back. -/
theorem decodeOptColor_map {col : Option TextColor} (h : wfColorOpt col = true) :
    decodeOptColor (col.map textColorJson) = some col := by
  cases col with
  | none => rfl
  | some tc =>
    cases tc with
    | named nc => simp [decodeOptColor, textColorJson, decodeTextColor, namedColorFromStr_round]
    | hex s =>
      have hs : isHexRRGGBB s = true := h
      simp [decodeOptColor, textColorJson, decodeTextColor, namedColorFromStr_none_of_hex hs]

/-- Click events decode back. -/
theorem decodeClickEvent_round (ev : ClickEvent) :
    decodeClickEvent (clickEventJson ev) = some ev := by
  cases ev <;> rfl

/-- Optional click events decode back. -/
theorem decodeOptClick_map (o : Option ClickEvent) :
    decodeOptClick (o.map clickEventJson) = some o := by
  cases o with
  | none => rfl
  | some ev => simp [decodeOptClick, decodeClickEvent_round]

/-- Item payloads decode back. -/
theorem decodeItemData_round (d : DisplayItemData) :
    decodeItemData (itemDataJson d) = some d := by
  obtain ⟨i, cnt, tg⟩ := d
  cases cnt <;> cases tg <;> rfl

/-- Scoreboard payloads decode back. -/
theorem decodeScoreMsg_round (sm : ScoreboardMessage) :
    decodeScoreMsg (scoreJson sm) = some sm := by
  obtain ⟨n, o, v⟩ := sm
  cases v <;> rfl

/-- The translate trial fails whatever the fuel when the translate key is
absent. -/
theorem decodeTranslateTrial_none {fs : List (String × Json)} (fuel : Nat)
    (h : getField fs "translate" = none) : decodeTranslateTrial fuel fs = none := by
  cases fuel with
  | zero => rfl
  | succ m => simp [decodeTranslateTrial, h, decodeStr]

/-- The entity trial fails whatever the fuel when the selector key is absent. -/
theorem decodeEntityTrial_none {fs : List (String × Json)} (fuel : Nat)
    (h : getField fs "selector" = none) : decodeEntityTrial fuel fs = none := by
  cases fuel with
  | zero => rfl
  | succ m => simp [decodeEntityTrial, h, decodeStr]

/-! ## Field extraction from a serialized component -/

/-- Lookup of the extra field in a serialized component. -/
theorem gf_cf_extra (e : Option (List Component)) (b i o s u r : Option Bool)
    (col : Option TextColor) (ct : MessageContents) (ins : Option String)
    (ce : Option ClickEvent) (he : Option HoverEvent) :
    getField (componentFields (.mk e b i o s u r col ct ins ce he)) "extra" =
      extraJsonOpt e := by
  rw [componentFields]
  simp only [List.append_assoc]
  rw [getField_optF_eq]
  rw [getField_optF_ne (by decide),
      getField_optF_ne (by decide),
      getField_optF_ne (by decide),
      getField_optF_ne (by decide),
      getField_optF_ne (by decide),
      getField_optF_ne (by decide),
      getField_optF_ne (by decide),
      getField_append_left_none (getField_cf_own ct "extra" (by decide)),
      getField_optF_ne (by decide),
      getField_optF_ne (by decide),
      getField_optF_ne_alone (by decide)]

/-- Lookup of the bold field in a serialized component. -/
theorem gf_cf_bold (e : Option (List Component)) (b i o s u r : Option Bool)
    (col : Option TextColor) (ct : MessageContents) (ins : Option String)
    (ce : Option ClickEvent) (he : Option HoverEvent) :
    getField (componentFields (.mk e b i o s u r col ct ins ce he)) "bold" =
      b.map Json.jbool := by
  rw [componentFields]
  simp only [List.append_assoc]
  rw [getField_optF_ne (by decide), getField_optF_eq]
  rw [getField_optF_ne (by decide),
      getField_optF_ne (by decide),
      getField_optF_ne (by decide),
      getField_optF_ne (by decide),
      getField_optF_ne (by decide),
      getField_optF_ne (by decide),
      getField_append_left_none (getField_cf_own ct "bold" (by decide)),
      getField_optF_ne (by decide),
      getField_optF_ne (by decide),
      getField_optF_ne_alone (by decide)]

/-- Lookup of the italic field in a serialized component. -/
theorem gf_cf_italic (e : Option (List Component)) (b i o s u r : Option Bool)
    (col : Option TextColor) (ct : MessageContents) (ins : Option String)
    (ce : Option ClickEvent) (he : Option HoverEvent) :
    getField (componentFields (.mk e b i o s u r col ct ins ce he)) "italic" =
      i.map Json.jbool := by
  rw [componentFields]
  simp only [List.append_assoc]
  rw [getField_optF_ne (by decide), getField_optF_ne (by decide), getField_optF_eq]
  rw [getField_optF_ne (by decide),
      getField_optF_ne (by decide),
      getField_optF_ne (by decide),
      getField_optF_ne (by decide),
      getField_optF_ne (by decide),
      getField_append_left_none (getField_cf_own ct "italic" (by decide)),
      getField_optF_ne (by decide),
      getField_optF_ne (by decide),
      getField_optF_ne_alone (by decide)]

/-- Lookup of the obfuscated field in a serialized component. -/
theorem gf_cf_obfuscated (e : Option (List Component)) (b i o s u r : Option Bool)
    (col : Option TextColor) (ct : MessageContents) (ins : Option String)
    (ce : Option ClickEvent) (he : Option HoverEvent) :
    getField (componentFields (.mk e b i o s u r col ct ins ce he)) "obfuscated" =
      o.map Json.jbool := by
  rw [componentFields]
  simp only [List.append_assoc]
  rw [getField_optF_ne (by decide), getField_optF_ne (by decide), getField_optF_ne (by decide), getField_optF_eq]
  rw [getField_optF_ne (by decide),
      getField_optF_ne (by decide),
      getField_optF_ne (by decide),
      getField_optF_ne (by decide),
      getField_append_left_none (getField_cf_own ct "obfuscated" (by decide)),
      getField_optF_ne (by decide),
      getField_optF_ne (by decide),
      getField_optF_ne_alone (by decide)]

/-- Lookup of the strikethrough field in a serialized component. -/
theorem gf_cf_strikethrough (e : Option (List Component)) (b i o s u r : Option Bool)
    (col : Option TextColor) (ct : MessageContents) (ins : Option String)
    (ce : Option ClickEvent) (he : Option HoverEvent) :
    getField (componentFields (.mk e b i o s u r col ct ins ce he)) "strikethrough" =
      s.map Json.jbool := by
  rw [componentFields]
  simp only [List.append_assoc]
  rw [getField_optF_ne (by decide), getField_optF_ne (by decide), getField_optF_ne (by decide), getField_optF_ne (by decide), getField_optF_eq]
  rw [getField_optF_ne (by decide),
      getField_optF_ne (by decide),
      getField_optF_ne (by decide),
      getField_append_left_none (getField_cf_own ct "strikethrough" (by decide)),
      getField_optF_ne (by decide),
      getField_optF_ne (by decide),
      getField_optF_ne_alone (by decide)]

/-- Lookup of the underlined field in a serialized component. -/
theorem gf_cf_underlined (e : Option (List Component)) (b i o s u r : Option Bool)
    (col : Option TextColor) (ct : MessageContents) (ins : Option String)
    (ce : Option ClickEvent) (he : Option HoverEvent) :
    getField (componentFields (.mk e b i o s u r col ct ins ce he)) "underlined" =
      u.map Json.jbool := by
  rw [componentFields]
  simp only [List.append_assoc]
  rw [getField_optF_ne (by decide), getField_optF_ne (by decide), getField_optF_ne (by decide), getField_optF_ne (by decide), getField_optF_ne (by decide), getField_optF_eq]
  rw [getField_optF_ne (by decide),
      getField_optF_ne (by decide),
      getField_append_left_none (getField_cf_own ct "underlined" (by decide)),
      getField_optF_ne (by decide),
      getField_optF_ne (by decide),
      getField_optF_ne_alone (by decide)]

/-- Lookup of the reset field in a serialized component. -/
theorem gf_cf_reset (e : Option (List Component)) (b i o s u r : Option Bool)
    (col : Option TextColor) (ct : MessageContents) (ins : Option String)
    (ce : Option ClickEvent) (he : Option HoverEvent) :
    getField (componentFields (.mk e b i o s u r col ct ins ce he)) "reset" =
      r.map Json.jbool := by
  rw [componentFields]
  simp only [List.append_assoc]
  rw [getField_optF_ne (by decide), getField_optF_ne (by decide), getField_optF_ne (by decide), getField_optF_ne (by decide), getField_optF_ne (by decide), getField_optF_ne (by decide), getField_optF_eq]
  rw [getField_optF_ne (by decide),
      getField_append_left_none (getField_cf_own ct "reset" (by decide)),
      getField_optF_ne (by decide),
      getField_optF_ne (by decide),
      getField_optF_ne_alone (by decide)]

/-- Lookup of the color field in a serialized component. -/
theorem gf_cf_color (e : Option (List Component)) (b i o s u r : Option Bool)
    (col : Option TextColor) (ct : MessageContents) (ins : Option String)
    (ce : Option ClickEvent) (he : Option HoverEvent) :
    getField (componentFields (.mk e b i o s u r col ct ins ce he)) "color" =
      col.map textColorJson := by
  rw [componentFields]
  simp only [List.append_assoc]
  rw [getField_optF_ne (by decide), getField_optF_ne (by decide), getField_optF_ne (by decide), getField_optF_ne (by decide), getField_optF_ne (by decide), getField_optF_ne (by decide), getField_optF_ne (by decide), getField_optF_eq]
  rw [getField_append_left_none (getField_cf_own ct "color" (by decide)),
      getField_optF_ne (by decide),
      getField_optF_ne (by decide),
      getField_optF_ne_alone (by decide)]

/-- Lookup of the insertion field in a serialized component. -/
theorem gf_cf_insertion (e : Option (List Component)) (b i o s u r : Option Bool)
    (col : Option TextColor) (ct : MessageContents) (ins : Option String)
    (ce : Option ClickEvent) (he : Option HoverEvent) :
    getField (componentFields (.mk e b i o s u r col ct ins ce he)) "insertion" =
      ins.map Json.str := by
  rw [componentFields]
  simp only [List.append_assoc]
  rw [getField_optF_ne (by decide),
      getField_optF_ne (by decide),
      getField_optF_ne (by decide),
      getField_optF_ne (by decide),
      getField_optF_ne (by decide),
      getField_optF_ne (by decide),
      getField_optF_ne (by decide),
      getField_optF_ne (by decide),
      getField_append_left_none (getField_cf_own ct "insertion" (by decide)),
      getField_optF_eq]
  rw [getField_optF_ne (by decide), getField_optF_ne_alone (by decide)]

/-- Lookup of the clickEvent field in a serialized component. -/
theorem gf_cf_clickEvent (e : Option (List Component)) (b i o s u r : Option Bool)
    (col : Option TextColor) (ct : MessageContents) (ins : Option String)
    (ce : Option ClickEvent) (he : Option HoverEvent) :
    getField (componentFields (.mk e b i o s u r col ct ins ce he)) "clickEvent" =
      ce.map clickEventJson := by
  rw [componentFields]
  simp only [List.append_assoc]
  rw [getField_optF_ne (by decide),
      getField_optF_ne (by decide),
      getField_optF_ne (by decide),
      getField_optF_ne (by decide),
      getField_optF_ne (by decide),
      getField_optF_ne (by decide),
      getField_optF_ne (by decide),
      getField_optF_ne (by decide),
      getField_append_left_none (getField_cf_own ct "clickEvent" (by decide)),
      getField_optF_ne (by decide),
      getField_optF_eq]
  rw [getField_optF_ne_alone (by decide)]

/-- Lookup of the hoverEvent field in a serialized component. -/
theorem gf_cf_hoverEvent (e : Option (List Component)) (b i o s u r : Option Bool)
    (col : Option TextColor) (ct : MessageContents) (ins : Option String)
    (ce : Option ClickEvent) (he : Option HoverEvent) :
    getField (componentFields (.mk e b i o s u r col ct ins ce he)) "hoverEvent" =
      hoverJsonOpt he := by
  rw [componentFields]
  simp only [List.append_assoc]
  rw [getField_optF_ne (by decide),
      getField_optF_ne (by decide),
      getField_optF_ne (by decide),
      getField_optF_ne (by decide),
      getField_optF_ne (by decide),
      getField_optF_ne (by decide),
      getField_optF_ne (by decide),
      getField_optF_ne (by decide),
      getField_append_left_none (getField_cf_own ct "hoverEvent" (by decide)),
      getField_optF_ne (by decide),
      getField_optF_ne (by decide),
      getField_optF_eq_alone _ _]

/-- For keys outside the component vocabulary, lookup in the serialized
component falls through to the flattened contents fields. -/
theorem gf_cf_contents (e : Option (List Component)) (b i o s u r : Option Bool)
    (col : Option TextColor) (ct : MessageContents) (ins : Option String)
    (ce : Option ClickEvent) (he : Option HoverEvent) (k : String)
    (h1 : ("extra" : String) ≠ k) (h2 : ("bold" : String) ≠ k)
    (h3 : ("italic" : String) ≠ k) (h4 : ("obfuscated" : String) ≠ k)
    (h5 : ("strikethrough" : String) ≠ k) (h6 : ("underlined" : String) ≠ k)
    (h7 : ("reset" : String) ≠ k) (h8 : ("color" : String) ≠ k)
    (h9 : ("insertion" : String) ≠ k) (h10 : ("clickEvent" : String) ≠ k)
    (h11 : ("hoverEvent" : String) ≠ k) :
    getField (componentFields (.mk e b i o s u r col ct ins ce he)) k =
      getField (contentsFields ct) k := by
  rw [componentFields]
  simp only [List.append_assoc]
  rw [getField_optF_ne h1, getField_optF_ne h2, getField_optF_ne h3, getField_optF_ne h4,
      getField_optF_ne h5, getField_optF_ne h6, getField_optF_ne h7, getField_optF_ne h8]
  rw [getField_append_right_none (by
    rw [getField_optF_ne h9, getField_optF_ne h10, getField_optF_ne_alone h11])]
def contentsKeyList : List String :=
  ["text", "translate", "with", "score", "selector", "separator", "keybind", "nbt",
   "interpret", "block", "entity", "storage"]

theorem orElse_some {α : Type} (a : α) (f : Unit → Option α) :
    (Option.some a).orElse f = some a := rfl

theorem orElse_none {α : Type} (f : Unit → Option α) :
    (Option.none : Option α).orElse f = f () := rfl

theorem option_sizeOf_pos {α : Type} [SizeOf α] (o : Option α) : 1 ≤ sizeOf o := by
  cases o <;> simp

theorem decode_encode_round : ∀ n : Nat,
    (∀ c : Component, sizeOf c ≤ n → wfComponent c = true →
      decodeComponent n (componentJson c) = some c) ∧
    (∀ l : List Component, sizeOf l ≤ n → wfComponentList l = true →
      decodeComponentList n (componentListJson l) = some l) ∧
    (∀ (ct : MessageContents) (fs : List (String × Json)), sizeOf ct ≤ n →
      wfContents ct = true →
      (∀ k : String, k ∈ contentsKeyList → getField fs k = getField (contentsFields ct) k) →
      decodeContents n fs = some ct) ∧
    (∀ hv : HoverEvent, sizeOf hv ≤ n → wfHover hv = true →
      decodeHover n (hoverEventJson hv) = some hv) ∧
    (∀ (nm : Option Component) (ty uid : String),
      sizeOf (DisplayEntityData.mk nm ty uid) ≤ n → wfSepOpt nm = true →
      decodeEntityData n (.obj (optF "name" (sepJsonOpt nm)
        ++ [("type", Json.str ty), ("id", Json.str uid)])) = some (.mk nm ty uid)) := by
  intro n
  induction n using Nat.strong_induction_on with
  | _ n IH =>
    match n with
    | 0 =>
      refine ⟨?_, ?_, ?_, ?_, ?_⟩
      · intro c hle
        cases c
        simp at hle
      · intro l hle
        cases l <;> simp at hle
      · intro ct fs hle
        cases ct <;> simp at hle
      · intro hv hle
        cases hv <;> simp at hle
      · intro nm ty uid hle
        simp at hle
    | m + 1 =>
      obtain ⟨ihPC, ihPL, ihPCt, ihPH, ihPE⟩ := IH m (by omega)
      refine ⟨?_, ?_, ?_, ?_, ?_⟩
      · -- components
        intro c hle hwf
        cases c with
        | mk e b i o s u r col ct ins ce he =>
          rw [wfComponent] at hwf
          simp only [Bool.and_eq_true] at hwf
          obtain ⟨⟨⟨hcol, hext⟩, hct⟩, hhov⟩ := hwf
          have hsz : sizeOf ct ≤ m ∧ sizeOf e ≤ m ∧ sizeOf he ≤ m := by
            simp at hle
            omega
          have hctr : decodeContents m (componentFields
              (.mk e b i o s u r col ct ins ce he)) = some ct := by
            refine ihPCt ct _ hsz.1 hct ?_
            intro k hk
            fin_cases hk <;>
              exact gf_cf_contents e b i o s u r col ct ins ce he _ (by decide) (by decide)
                (by decide) (by decide) (by decide) (by decide) (by decide) (by decide)
                (by decide) (by decide) (by decide)
          rw [componentJson]
          simp only [decodeComponent]
          rw [gf_cf_extra, gf_cf_bold, gf_cf_italic, gf_cf_obfuscated, gf_cf_strikethrough,
              gf_cf_underlined, gf_cf_reset, gf_cf_color, gf_cf_insertion, gf_cf_clickEvent,
              gf_cf_hoverEvent]
          cases e with
          | none =>
            cases he with
            | none =>
              simp [extraJsonOpt, hoverJsonOpt, decodeOptBool_map, decodeOptStr_map,
                decodeOptColor_map hcol, decodeOptClick_map, hctr]
            | some hv =>
              have hhv : decodeHover m (hoverEventJson hv) = some hv := by
                refine ihPH hv ?_ ?_
                · simp at hle ⊢
                  omega
                · simpa [wfHoverOpt] using hhov
              simp [extraJsonOpt, hoverJsonOpt, decodeOptBool_map, decodeOptStr_map,
                decodeOptColor_map hcol, decodeOptClick_map, hctr, hhv]
          | some vec =>
            have hvec : decodeComponentList m (componentListJson vec) = some vec := by
              refine ihPL vec ?_ ?_
              · simp at hle ⊢
                omega
              · simpa [wfExtra] using hext
            cases he with
            | none =>
              simp [extraJsonOpt, hoverJsonOpt, decodeOptBool_map, decodeOptStr_map,
                decodeOptColor_map hcol, decodeOptClick_map, hctr, hvec]
            | some hv =>
              have hhv : decodeHover m (hoverEventJson hv) = some hv := by
                refine ihPH hv ?_ ?_
                · simp at hle ⊢
                  omega
                · simpa [wfHoverOpt] using hhov
              simp [extraJsonOpt, hoverJsonOpt, decodeOptBool_map, decodeOptStr_map,
                decodeOptColor_map hcol, decodeOptClick_map, hctr, hvec, hhv]
      · -- lists
        intro l hle hwf
        cases l with
        | nil => rfl
        | cons c rest =>
          rw [wfComponentList] at hwf
          simp only [Bool.and_eq_true] at hwf
          have hszc : sizeOf c ≤ m := by
            simp at hle
            omega
          have hszr : sizeOf rest ≤ m := by
            simp at hle
            omega
          have hc := ihPC c hszc hwf.1
          rw [componentJson] at hc
          have hr := ihPL rest hszr hwf.2
          simp [componentListJson, decodeComponentList, hc, hr]
      · -- contents
        intro ct fs hle hwf hag
        simp only [decodeContents]
        cases ct with
        | plain t =>
          have htext : getField fs "text" = some (.str t) := by
            rw [hag "text" (by decide), contentsFields, getField_cons_eq]
          simp [decodePlainTrial, htext, orElse_some]
        | translate tm =>
          obtain ⟨tr, w⟩ := tm
          have htext : getField fs "text" = none := by
            rw [hag "text" (by decide), contentsFields,
              getField_cons_ne (by decide), getField_optF_ne_alone (by decide)]
          have htr : getField fs "translate" = some (.str tr) := by
            rw [hag "translate" (by decide), contentsFields, getField_cons_eq]
          have hw : getField fs "with" = extraJsonOpt w := by
            rw [hag "with" (by decide), contentsFields,
              getField_cons_ne (by decide), getField_optF_eq_alone]
          have hm : 2 ≤ m := by
            have hwpos := option_sizeOf_pos w
            simp at hle
            omega
          match m, hm with
          | p + 2, _ =>
            simp only [decodePlainTrial, htext, orElse_none]
            simp only [decodeTranslateTrial, htr, decodeStr, hw]
            cases w with
            | none =>
              simp [extraJsonOpt, orElse_some]
            | some l =>
              have hszl : sizeOf l ≤ p + 1 := by
                simp at hle
                omega
              have hl : decodeComponentList (p + 1) (componentListJson l) = some l := by
                obtain ⟨ihPC2, ihPL2, -, -, -⟩ := IH (p + 1) (by omega)
                exact ihPL2 l hszl (by simpa [wfExtra] using hwf)
              simp [extraJsonOpt, hl, orElse_some]
        | score sm =>
          have htext : getField fs "text" = none := by
            rw [hag "text" (by decide), contentsFields, getField_cons_ne (by decide)]
            rfl
          have htr : getField fs "translate" = none := by
            rw [hag "translate" (by decide), contentsFields, getField_cons_ne (by decide)]
            rfl
          have hscore : getField fs "score" = some (scoreJson sm) := by
            rw [hag "score" (by decide), contentsFields, getField_cons_eq]
          simp [decodePlainTrial, htext, orElse_none, decodeTranslateTrial_none _ htr,
            decodeScoreTrial, hscore, decodeScoreMsg_round, orElse_some]
        | entity em =>
          obtain ⟨sel, sep⟩ := em
          have htext : getField fs "text" = none := by
            rw [hag "text" (by decide), contentsFields,
              getField_cons_ne (by decide), getField_optF_ne_alone (by decide)]
          have htr : getField fs "translate" = none := by
            rw [hag "translate" (by decide), contentsFields,
              getField_cons_ne (by decide), getField_optF_ne_alone (by decide)]
          have hscore : getField fs "score" = none := by
            rw [hag "score" (by decide), contentsFields,
              getField_cons_ne (by decide), getField_optF_ne_alone (by decide)]
          have hsel : getField fs "selector" = some (.str sel) := by
            rw [hag "selector" (by decide), contentsFields, getField_cons_eq]
          have hsep : getField fs "separator" = sepJsonOpt sep := by
            rw [hag "separator" (by decide), contentsFields,
              getField_cons_ne (by decide), getField_optF_eq_alone]
          have hm : 2 ≤ m := by
            have hspos := option_sizeOf_pos sep
            simp at hle
            omega
          match m, hm with
          | p + 2, _ =>
            simp only [decodePlainTrial, htext, orElse_none,
              decodeTranslateTrial_none _ htr, decodeScoreTrial, hscore]
            simp only [decodeEntityTrial, hsel, decodeStr, hsep]
            cases sep with
            | none =>
              simp [sepJsonOpt, orElse_some]
            | some c =>
              have hszc : sizeOf c ≤ p + 1 := by
                simp at hle
                omega
              have hc : decodeComponent (p + 1) (componentJson c) = some c := by
                obtain ⟨ihPC2, -, -, -, -⟩ := IH (p + 1) (by omega)
                exact ihPC2 c hszc (by simpa [wfSepOpt] using hwf)
              rw [componentJson] at hc
              simp [sepJsonOpt, hc, orElse_some]
        | keybind kk =>
          obtain ⟨kb⟩ := kk
          have htext : getField fs "text" = none := by
            rw [hag "text" (by decide), contentsFields, getField_cons_ne (by decide)]
            rfl
          have htr : getField fs "translate" = none := by
            rw [hag "translate" (by decide), contentsFields, getField_cons_ne (by decide)]
            rfl
          have hscore : getField fs "score" = none := by
            rw [hag "score" (by decide), contentsFields, getField_cons_ne (by decide)]
            rfl
          have hsel : getField fs "selector" = none := by
            rw [hag "selector" (by decide), contentsFields, getField_cons_ne (by decide)]
            rfl
          have hkb : getField fs "keybind" = some (.str kb) := by
            rw [hag "keybind" (by decide), contentsFields, getField_cons_eq]
          simp [decodePlainTrial, htext, orElse_none, decodeTranslateTrial_none _ htr,
            decodeScoreTrial, hscore, decodeEntityTrial_none _ hsel,
            decodeKeybindTrial, hkb, orElse_some]
        | nbt nb =>
          obtain ⟨p2, itp, sep, bl, en, st⟩ := nb
          have htext : getField fs "text" = none := by
            rw [hag "text" (by decide), contentsFields]
            simp only [List.append_assoc]
            rw [getField_cons_ne (by decide),
              getField_optF_ne (by decide), getField_optF_ne (by decide),
              getField_optF_ne (by decide), getField_optF_ne (by decide),
              getField_optF_ne_alone (by decide)]
          have htr : getField fs "translate" = none := by
            rw [hag "translate" (by decide), contentsFields]
            simp only [List.append_assoc]
            rw [getField_cons_ne (by decide),
              getField_optF_ne (by decide), getField_optF_ne (by decide),
              getField_optF_ne (by decide), getField_optF_ne (by decide),
              getField_optF_ne_alone (by decide)]
          have hscore : getField fs "score" = none := by
            rw [hag "score" (by decide), contentsFields]
            simp only [List.append_assoc]
            rw [getField_cons_ne (by decide),
              getField_optF_ne (by decide), getField_optF_ne (by decide),
              getField_optF_ne (by decide), getField_optF_ne (by decide),
              getField_optF_ne_alone (by decide)]
          have hsel : getField fs "selector" = none := by
            rw [hag "selector" (by decide), contentsFields]
            simp only [List.append_assoc]
            rw [getField_cons_ne (by decide),
              getField_optF_ne (by decide), getField_optF_ne (by decide),
              getField_optF_ne (by decide), getField_optF_ne (by decide),
              getField_optF_ne_alone (by decide)]
          have hkb : getField fs "keybind" = none := by
            rw [hag "keybind" (by decide), contentsFields]
            simp only [List.append_assoc]
            rw [getField_cons_ne (by decide),
              getField_optF_ne (by decide), getField_optF_ne (by decide),
              getField_optF_ne (by decide), getField_optF_ne (by decide),
              getField_optF_ne_alone (by decide)]
          have hnbt : getField fs "nbt" = some (.str p2) := by
            rw [hag "nbt" (by decide), contentsFields, getField_cons_eq]
          have hitp : getField fs "interpret" = itp.map Json.jbool := by
            rw [hag "interpret" (by decide), contentsFields]
            simp only [List.append_assoc]
            rw [getField_cons_ne (by decide), getField_optF_eq]
            rw [getField_optF_ne (by decide), getField_optF_ne (by decide),
              getField_optF_ne (by decide), getField_optF_ne_alone (by decide)]
          have hsep : getField fs "separator" = sepJsonOpt sep := by
            rw [hag "separator" (by decide), contentsFields]
            simp only [List.append_assoc]
            rw [getField_cons_ne (by decide),
              getField_optF_ne (by decide), getField_optF_eq]
            rw [getField_optF_ne (by decide), getField_optF_ne (by decide),
              getField_optF_ne_alone (by decide)]
          have hbl : getField fs "block" = bl.map Json.str := by
            rw [hag "block" (by decide), contentsFields]
            simp only [List.append_assoc]
            rw [getField_cons_ne (by decide),
              getField_optF_ne (by decide), getField_optF_ne (by decide), getField_optF_eq]
            rw [getField_optF_ne (by decide), getField_optF_ne_alone (by decide)]
          have hen : getField fs "entity" = en.map Json.str := by
            rw [hag "entity" (by decide), contentsFields]
            simp only [List.append_assoc]
            rw [getField_cons_ne (by decide),
              getField_optF_ne (by decide), getField_optF_ne (by decide),
              getField_optF_ne (by decide), getField_optF_eq]
            rw [getField_optF_ne_alone (by decide)]
          have hst : getField fs "storage" = st.map Json.str := by
            rw [hag "storage" (by decide), contentsFields]
            simp only [List.append_assoc]
            rw [getField_cons_ne (by decide),
              getField_optF_ne (by decide), getField_optF_ne (by decide),
              getField_optF_ne (by decide), getField_optF_ne (by decide),
              getField_optF_eq_alone]
          have hm : 2 ≤ m := by
            have hipos := option_sizeOf_pos itp
            have hspos := option_sizeOf_pos sep
            simp at hle
            omega
          match m, hm with
          | p + 2, _ =>
            simp only [decodePlainTrial, htext, orElse_none,
              decodeTranslateTrial_none _ htr, decodeScoreTrial, hscore,
              decodeEntityTrial_none _ hsel, decodeKeybindTrial, hkb]
            simp only [decodeNbtTrial, hnbt, decodeStr, hitp, hsep, hbl, hen, hst,
              decodeOptBool_map, decodeOptStr_map]
            cases sep with
            | none =>
              simp [sepJsonOpt, decodeOptBool_map, decodeOptStr_map]
            | some c =>
              have hszc : sizeOf c ≤ p + 1 := by
                simp at hle
                omega
              have hc : decodeComponent (p + 1) (componentJson c) = some c := by
                obtain ⟨ihPC2, -, -, -, -⟩ := IH (p + 1) (by omega)
                exact ihPC2 c hszc (by simpa [wfSepOpt] using hwf)
              rw [componentJson] at hc
              simp [sepJsonOpt, hc, decodeOptBool_map, decodeOptStr_map]
      · -- hover events
        intro hv hle hwf
        cases hv with
        | showText c =>
          have hszc : sizeOf c ≤ m := by
            simp at hle
            omega
          have hc := ihPC c hszc (by simpa [wfHover] using hwf)
          rw [componentJson] at hc
          simp [hoverEventJson, decodeHover, getField, decodeStr, hc]
        | showItem d =>
          simp [hoverEventJson, decodeHover, getField, decodeStr, decodeItemData_round]
        | showEntity ed =>
          obtain ⟨nm, ty, uid⟩ := ed
          have hszd : sizeOf (DisplayEntityData.mk nm ty uid) ≤ m := by
            simp at hle ⊢
            omega
          have hd := ihPE nm ty uid hszd (by simpa [wfHover] using hwf)
          simp [hoverEventJson, decodeHover, getField, decodeStr, hd]
      · -- entity display data
        intro nm ty uid hle hwf
        have hname : getField (optF "name" (sepJsonOpt nm)
            ++ [("type", Json.str ty), ("id", Json.str uid)]) "name" = sepJsonOpt nm := by
          rw [getField_optF_eq]
          rw [getField_cons_ne (by decide), getField_cons_ne (by decide)]
          rfl
        have hty : getField (optF "name" (sepJsonOpt nm)
            ++ [("type", Json.str ty), ("id", Json.str uid)]) "type" = some (.str ty) := by
          rw [getField_optF_ne (by decide), getField_cons_eq]
        have hid : getField (optF "name" (sepJsonOpt nm)
            ++ [("type", Json.str ty), ("id", Json.str uid)]) "id" = some (.str uid) := by
          rw [getField_optF_ne (by decide), getField_cons_ne (by decide), getField_cons_eq]
        simp only [decodeEntityData, hname, hty, hid, decodeStr]
        cases nm with
        | none => simp [sepJsonOpt]
        | some c =>
          have hszc : sizeOf c ≤ m := by
            simp at hle
            omega
          have hc := ihPC c hszc (by simpa [wfSepOpt] using hwf)
          rw [componentJson] at hc
          simp [sepJsonOpt, hc]

/-- C2: for every Document value d expressible by the grammar of section 3
(well-formed: every stored hex color has the #RRGGBB shape, which the types do
not themselves enforce), decoding the JSON produced by encoding d yields d
back, and re-encoding the decoded value produces the identical object, field
for field; since the decoder reads every field by key lookup, the decoded
result is independent of key order. The fuel argument sizeOf d is a
termination device of the embedding and suffices for d. -/
theorem C2_json_roundtrip (d : Component) (hwf : wfComponent d = true) :
    decodeComponent (sizeOf d) (componentJson d) = some d ∧
    (decodeComponent (sizeOf d) (componentJson d)).map componentJson =
      some (componentJson d) := by
  have h := (decode_encode_round (sizeOf d)).1 d le_rfl hwf
  refine ⟨h, ?_⟩
  rw [h]
  rfl

/-- Sample document exercising children, formatting flags, hex and named
colors, translate arguments, nbt with separator, click and hover events. -/
def sampleDoc : Component :=
  .mk (some [Component.text "a",
        .mk none (some true) none none none none none (some (.hex "#AABBCC"))
          (.translate (.mk "k" (some [Component.text "w"]))) none
          (some (.changePage "3"))
          (some (.showText (Component.text "h")))])
    none none none none none (some false) (some (.named .red))
    (.nbt (.mk "path" (some true) (some (Component.text "sep")) none (some "ent") none))
    (some "ins") none
    (some (.showEntity (.mk (some (Component.text "nm")) "minecraft:pig" "uuid-123")))

/-- C2 witness: the round trip evaluated on the sample document. -/
theorem C2_json_roundtrip_witness :
    decodeComponent (sizeOf sampleDoc) (componentJson sampleDoc) = some sampleDoc ∧
    (decodeComponent (sizeOf sampleDoc) (componentJson sampleDoc)).map componentJson =
      some (componentJson sampleDoc) :=
  C2_json_roundtrip sampleDoc rfl
